import Mathlib

/-!
Verification of `scripts/merge_openapi.py` (FocusNest spec merger).

The script is embedded shallowly: parsed YAML documents become the inductive
type `YVal` (Python dicts are ordered association lists, matching Python 3.7+
insertion-order semantics), the in-place mutation of the accumulator becomes
explicit state passing, and Python exceptions (AttributeError / TypeError /
file errors) become `Except String`.
-/

namespace MergeOpenapi

/-- A parsed YAML value, as produced by `yaml.safe_load`: scalars, sequences
and string-keyed mappings.  Mappings keep insertion order, like Python dicts. -/
inductive YVal where
  | null : YVal
  | bool : Bool → YVal
  | int : Int → YVal
  | str : String → YVal
  | seq : List YVal → YVal
  | map : List (String × YVal) → YVal

/-- A Python dict with string keys, in insertion order. -/
abbrev Ydict := List (String × YVal)

/-- Python truthiness of a YAML value (`bool(v)`). -/
def truthy : YVal → Bool
  | .null => false
  | .bool b => b
  | .int n => n != 0
  | .str s => s != ""
  | .seq l => !l.isEmpty
  | .map d => !d.isEmpty

/-- `d.get(k)` / `d[k]`: first binding of `k` in the dict. -/
def lookup : Ydict → String → Option YVal
  | [], _ => none
  | (k', v) :: rest, k => if k' = k then some v else lookup rest k

/-- `d[k] = v`: replace the value at the (unique) binding of `k` keeping its
position, or append the new binding at the end (Python dict insertion-order
semantics). -/
def setKey : Ydict → String → YVal → Ydict
  | [], k, v => [(k, v)]
  | (k₀, v₀) :: rest, k, v =>
      if k₀ = k then (k, v) :: rest else (k₀, v₀) :: setKey rest k v

/-- `deep_merge_dict(dst, src)` from the script, for dict arguments: iterate
over `src` in order; if the key maps to a dict in `dst` and the source value
is a dict, recursively merge, otherwise `dst[k] = deepcopy(v)` (a deep copy
is the identity on pure values).  The script's `(src or {})` guard is a no-op
when `src` is a dict, since an empty dict iterates the same as `{}`. -/
def deep_merge_dict : Ydict → Ydict → Ydict
  | dst, [] => dst
  | dst, (k, YVal.map s0) :: rest =>
      deep_merge_dict
        (match lookup dst k with
         | some (.map d0) => setKey dst k (.map (deep_merge_dict d0 s0))
         | _ => setKey dst k (.map s0))
        rest
  | dst, (k, v) :: rest =>
      deep_merge_dict (setKey dst k v) rest
termination_by _ src => sizeOf src
decreasing_by all_goals (simp_wf <;> omega)

/-- `spec.get(key, default)`. -/
def pyGet (spec : Ydict) (key : String) (default : YVal) : YVal :=
  (lookup spec key).getD default

/-- `v or {}`. -/
def pyOrEmptyDict (v : YVal) : YVal := if truthy v then v else .map []

/-- `v or []`. -/
def pyOrEmptyList (v : YVal) : YVal := if truthy v then v else .seq []

/-- The `(src or {}).items()` entry point of `deep_merge_dict` for an
arbitrary source value: a falsy value iterates as the empty dict, a truthy
dict yields its items, and a truthy non-dict raises `AttributeError` at
`.items()`. -/
def srcItems (v : YVal) : Except String Ydict :=
  if truthy v then
    match v with
    | .map d => .ok d
    | _ => .error "AttributeError: object has no attribute items"
  else .ok []

/-- `comps = spec.get('components', {}) or {}`; a truthy non-dict value
raises `AttributeError` at the subsequent `comps.get`. -/
def getComps (spec : Ydict) : Except String Ydict :=
  match pyOrEmptyDict (pyGet spec "components" (.map [])) with
  | .map d => .ok d
  | _ => .error "AttributeError: object has no attribute get"

/-- One iteration of the components loop:
`deep_merge_dict(out['components'].setdefault(key, {}), comps.get(key, {}) or {})`
acting on `oc = out['components']`.  The destination value is a dict
whenever `oc` was produced by this script (the shape invariant); the error
branch for a non-dict destination is unreachable from `merge_specs`. -/
def mergeCompKey (oc : Ydict) (comps : Ydict) (key : String) :
    Except String Ydict :=
  let oc' := if (lookup oc key).isSome then oc else setKey oc key (.map [])
  match lookup oc' key, srcItems (pyOrEmptyDict (pyGet comps key (.map []))) with
  | _, .error e => .error e
  | some (.map d), .ok src => .ok (setKey oc' key (.map (deep_merge_dict d src)))
  | _, _ => .error "TypeError: deep_merge_dict destination is not a dict"

/-- Structural equality on hashable (scalar) YAML values, used for the
`seen_tags` set membership.  Python's cross-type numeric equality
(`True == 1`) is not modelled; tag names are compared structurally. -/
def scalarBeq : YVal → YVal → Bool
  | .null, .null => true
  | .bool a, .bool b => a == b
  | .int a, .int b => a == b
  | .str a, .str b => a == b
  | _, _ => false

/-- One iteration of the tags loop for entry `t`, on the state
`(seen_tags as an insertion-ordered list, out['tags'] so far)`:
`name = t.get('name')`; if the name is truthy and unseen, append `t` to the
tags and record the name; a falsy name is skipped; a truthy unhashable name
(list or dict) raises `TypeError` at the set lookup; a non-dict entry raises
`AttributeError` at `.get`. -/
def tagStep (st : List YVal × List YVal) (t : YVal) :
    Except String (List YVal × List YVal) :=
  match t with
  | .map td =>
    match lookup td "name" with
    | none => .ok st
    | some name =>
      if truthy name then
        match name with
        | .seq _ => .error "TypeError: unhashable type list"
        | .map _ => .error "TypeError: unhashable type dict"
        | _ =>
          if st.1.any (scalarBeq name) then .ok st
          else .ok (st.1 ++ [name], st.2 ++ [t])
      else .ok st
  | _ => .error "AttributeError: object has no attribute get"

/-- `spec.get('tags', []) or []` as an iterable of entries: absent or falsy
gives no entries; a truthy sequence gives its elements; any truthy
non-sequence raises while iterating (a string or dict yields strings whose
`.get` raises `AttributeError`; other scalars are not iterable). -/
def getTags (spec : Ydict) : Except String (List YVal) :=
  match pyOrEmptyList (pyGet spec "tags" (.seq [])) with
  | .seq l => .ok l
  | _ => .error "TypeError: object is not iterable"

/-- The body of `merge_specs`'s per-input loop, after the input has been
parsed to the dict `spec`: deep-merge `paths`, the four components
sub-containers and the tags into the accumulator `out`, threading the
seen-tags set.  The in-place mutations of the script become `setKey` on the
accumulator; an exception anywhere aborts the whole run, so the partially
mutated accumulator of the script is never observable and the `Except`
model may discard it. -/
def mergeStep (out : Ydict) (seen : List YVal) (spec : Ydict) :
    Except String (Ydict × List YVal) := do
  let src ← srcItems (pyGet spec "paths" (.map []))
  let out ←
    match lookup out "paths" with
    | some (.map d) => Except.ok (setKey out "paths" (.map (deep_merge_dict d src)))
    | _ => Except.error "TypeError: deep_merge_dict destination is not a dict"
  let comps ← getComps spec
  let oc ←
    match lookup out "components" with
    | some (.map oc) => Except.ok oc
    | _ => Except.error "AttributeError: components is not a dict"
  let oc ← mergeCompKey oc comps "schemas"
  let oc ← mergeCompKey oc comps "securitySchemes"
  let oc ← mergeCompKey oc comps "parameters"
  let oc ← mergeCompKey oc comps "responses"
  let out := setKey out "components" (.map oc)
  let tags ← getTags spec
  let st ←
    match lookup out "tags" with
    | some (.seq acc) => tags.foldlM tagStep (seen, acc)
    | _ => Except.error "AttributeError: tags is not a list"
  .ok (setKey out "tags" (.seq st.2), st.1)

/-- Python's `str.strip()` with no argument: drop leading and trailing
whitespace.  (Python strips a slightly wider Unicode whitespace class than
`Char.isWhitespace`; only ASCII whitespace is relevant here.) -/
def pyStrip (s : String) : String :=
  ⟨((s.data.dropWhile Char.isWhitespace).reverse.dropWhile
      Char.isWhitespace).reverse⟩

/-- `os.environ.get('MERGE_DEFAULT_SERVER', '').strip()`; `env` is the
environment value, `none` when the variable is unset. -/
def defaultServerOf (env : Option String) : String := pyStrip (env.getD "")

/-- The accumulator seeded at the top of `merge_specs`, including the
optional default-server override: `out['servers'] = ...` inserts the new
key at the END of the dict (Python insertion order). -/
def initOut (defaultServer : String) : Ydict :=
  let base : Ydict :=
    [("openapi", .str "3.0.3"),
     ("info", .map [("title", .str "FocusNest - All Services"),
                    ("version", .str "1.0.0")]),
     ("paths", .map []),
     ("components", .map [("schemas", .map []), ("securitySchemes", .map []),
                          ("parameters", .map []), ("responses", .map [])]),
     ("tags", .seq [])]
  if defaultServer ≠ "" then
    setKey base "servers"
      (.seq [.map [("url", .str defaultServer), ("description", .str "Default")]])
  else base

/-- One iteration of `merge_specs`'s loop: `spec = load_yaml(p)` followed by
the merge body.  A loaded document whose root is not a mapping raises
`AttributeError` at the first `spec.get`. -/
def loadStep (load : String → Except String YVal) (st : Ydict × List YVal)
    (p : String) : Except String (Ydict × List YVal) := do
  let doc ← load p
  match doc with
  | .map spec => mergeStep st.1 st.2 spec
  | _ => Except.error ("AttributeError: " ++ p ++ ": document root is not a mapping")

/-- `merge_specs(paths)`: seed the accumulator, then run the per-input step
over the input paths in order.  `load` models `load_yaml`: its `.error`
covers a missing or unreadable file and a YAML parse failure. -/
def merge_specs (load : String → Except String YVal) (env : Option String)
    (paths : List String) : Except String Ydict := do
  let st ← paths.foldlM (loadStep load) (initOut (defaultServerOf env), [])
  .ok st.1

/-- Top-level key order written by `yaml.safe_dump(d, sort_keys=...)`:
alphabetically sorted when `sort_keys` is true, insertion order otherwise.
The script passes `sort_keys=False`. -/
def safe_dump_key_order (d : Ydict) (sort_keys : Bool) : List String :=
  if sort_keys then (d.map Prod.fst).mergeSort (· ≤ ·) else d.map Prod.fst

/-- Observable outcome of one `main()` run: exit code, lines printed to
stdout, the uncaught-exception diagnostic if any, and the file written
(path and document), if any. -/
structure RunResult where
  exitCode : Nat
  stdoutLines : List String
  stderrDiag : Option String
  written : Option (String × Ydict)

/-- The usage line printed on too few arguments. -/
def usageMsg : String := "Usage: merge_openapi.py <output> <input1> [input2 ...]"

/-- `main()`: `argv` is the full `sys.argv` including the program name at
index 0.  With fewer than 3 entries (fewer than 2 positional arguments),
print the usage line to stdout and exit 1 without touching any file.
Otherwise merge `argv[2:]`; an uncaught exception aborts with exit code 1
and writes nothing; on success write the merged document to `argv[1]` and
print the confirmation line. -/
def main_run (load : String → Except String YVal) (env : Option String)
    (argv : List String) : RunResult :=
  if argv.length < 3 then
    { exitCode := 1, stdoutLines := [usageMsg], stderrDiag := none, written := none }
  else
    let output := argv.getD 1 ""
    let inputs := argv.drop 2
    match merge_specs load env inputs with
    | .error e =>
        { exitCode := 1, stdoutLines := [], stderrDiag := some e, written := none }
    | .ok merged =>
        { exitCode := 0,
          stdoutLines := ["Wrote " ++ output ++ " from " ++ toString inputs.length ++ " inputs"],
          stderrDiag := none,
          written := some (output, merged) }

/-! ### Basic dictionary lemmas -/

/-- The keys of a dict, in order. -/
def keys (d : Ydict) : List String := d.map Prod.fst

theorem lookup_eq_none_of_not_mem (d : Ydict) (k : String)
    (h : k ∉ keys d) : lookup d k = none := by
  induction d with
  | nil => rfl
  | cons p rest ih =>
    obtain ⟨k', v⟩ := p
    simp [keys] at h
    rw [lookup, if_neg (fun hh => h.1 hh.symm), ih (by simp [keys, h.2])]

theorem lookup_setKey (d : Ydict) (k k' : String) (v : YVal) :
    lookup (setKey d k v) k' = if k = k' then some v else lookup d k' := by
  induction d with
  | nil =>
    by_cases h : k = k' <;> simp [setKey, lookup, h]
  | cons p rest ih =>
    obtain ⟨k₀, v₀⟩ := p
    by_cases h₀ : k₀ = k
    · subst h₀
      rw [setKey, if_pos rfl]
      by_cases h : k₀ = k' <;> simp [lookup, h]
    · rw [setKey, if_neg h₀]
      by_cases h : k₀ = k'
      · subst h
        have : ¬k = k₀ := fun hh => h₀ hh.symm
        simp [lookup, this]
      · simp [lookup, h, ih]

theorem keys_setKey (d : Ydict) (k : String) (v : YVal) :
    keys (setKey d k v) = if k ∈ keys d then keys d else keys d ++ [k] := by
  induction d with
  | nil => simp [setKey, keys]
  | cons p rest ih =>
    obtain ⟨k₀, v₀⟩ := p
    by_cases h₀ : k₀ = k
    · subst h₀
      rw [setKey, if_pos rfl]
      simp [keys]
    · rw [setKey, if_neg h₀]
      have : ¬k = k₀ := fun hh => h₀ hh.symm
      simp only [keys, List.map_cons] at ih ⊢
      rw [ih]
      by_cases hm : k ∈ List.map Prod.fst rest <;> simp [hm, this]

theorem keys_setKey_of_mem (d : Ydict) (k : String) (v : YVal)
    (h : k ∈ keys d) : keys (setKey d k v) = keys d := by
  rw [keys_setKey, if_pos h]

theorem setKey_lookup_self (d : Ydict) (k : String) (v : YVal)
    (hnd : (keys d).Nodup) (h : lookup d k = some v) : setKey d k v = d := by
  induction d with
  | nil => simp [lookup] at h
  | cons p rest ih =>
    obtain ⟨k₀, v₀⟩ := p
    simp [keys] at hnd
    by_cases h₀ : k₀ = k
    · subst h₀
      rw [lookup, if_pos rfl] at h
      rw [setKey, if_pos rfl]
      cases h
      rfl
    · rw [lookup, if_neg h₀] at h
      rw [setKey, if_neg h₀, ih (by simpa [keys] using hnd.2) h]

/-! ### C1: pointwise specification of the deep merge -/

/-- C1.  The deep-merge operation satisfies the spec's merge rule,
pointwise: after `deep_merge_dict dst src`, a key that maps to dicts on
both sides holds the recursive merge of the two, any other key of `src`
holds (a deep copy of) `src`'s value — overwriting prior values, including
on a dict-vs-non-dict type mismatch — and a key present only in `dst`
keeps its value unchanged.  The hypothesis that `src`'s keys have no
duplicates is automatic for a Python dict. -/
theorem deep_merge_dict_pointwise (dst src : Ydict)
    (h : (keys src).Nodup) (k : String) :
    lookup (deep_merge_dict dst src) k =
      match lookup src k, lookup dst k with
      | some (.map s0), some (.map d0) => some (.map (deep_merge_dict d0 s0))
      | some v, _ => some v
      | none, w => w := by
  induction src generalizing dst with
  | nil => simp [deep_merge_dict, lookup]
  | cons p rest ih =>
    obtain ⟨k₀, v₀⟩ := p
    simp [keys] at h
    obtain ⟨hk₀, hnd⟩ := h
    by_cases hkk : k₀ = k
    · subst hkk
      have hrest : lookup rest k₀ = none :=
        lookup_eq_none_of_not_mem rest k₀ (by simpa [keys] using hk₀)
      cases v₀ with
      | map s0 =>
        cases hdst : lookup dst k₀ with
        | none =>
          simp only [deep_merge_dict, hdst]
          rw [ih _ (by simpa [keys] using hnd)]
          simp [lookup, hrest, lookup_setKey]
        | some w =>
          cases w with
          | map d0 =>
            simp only [deep_merge_dict, hdst]
            rw [ih _ (by simpa [keys] using hnd)]
            simp [lookup, hrest, lookup_setKey, hdst]
          | null =>
            simp only [deep_merge_dict, hdst]
            rw [ih _ (by simpa [keys] using hnd)]
            simp [lookup, hrest, lookup_setKey, hdst]
          | bool b =>
            simp only [deep_merge_dict, hdst]
            rw [ih _ (by simpa [keys] using hnd)]
            simp [lookup, hrest, lookup_setKey, hdst]
          | int n =>
            simp only [deep_merge_dict, hdst]
            rw [ih _ (by simpa [keys] using hnd)]
            simp [lookup, hrest, lookup_setKey, hdst]
          | str s =>
            simp only [deep_merge_dict, hdst]
            rw [ih _ (by simpa [keys] using hnd)]
            simp [lookup, hrest, lookup_setKey, hdst]
          | seq l =>
            simp only [deep_merge_dict, hdst]
            rw [ih _ (by simpa [keys] using hnd)]
            simp [lookup, hrest, lookup_setKey, hdst]
      | null =>
        simp only [deep_merge_dict]
        rw [ih _ (by simpa [keys] using hnd)]
        simp [lookup, hrest, lookup_setKey]
      | bool b =>
        simp only [deep_merge_dict]
        rw [ih _ (by simpa [keys] using hnd)]
        simp [lookup, hrest, lookup_setKey]
      | int n =>
        simp only [deep_merge_dict]
        rw [ih _ (by simpa [keys] using hnd)]
        simp [lookup, hrest, lookup_setKey]
      | str s =>
        simp only [deep_merge_dict]
        rw [ih _ (by simpa [keys] using hnd)]
        simp [lookup, hrest, lookup_setKey]
      | seq l =>
        simp only [deep_merge_dict]
        rw [ih _ (by simpa [keys] using hnd)]
        simp [lookup, hrest, lookup_setKey]
    · have hlk : lookup ((k₀, v₀) :: rest) k = lookup rest k := by
        simp [lookup, hkk]
      rw [hlk]
      cases v₀ with
      | map s0 =>
        cases hdst : lookup dst k₀ with
        | none =>
          simp only [deep_merge_dict, hdst]
          rw [ih _ (by simpa [keys] using hnd)]
          simp [lookup_setKey, hkk]
        | some w =>
          cases w <;>
            (simp only [deep_merge_dict, hdst]
             rw [ih _ (by simpa [keys] using hnd)]
             simp [lookup_setKey, hkk])
      | null =>
        simp only [deep_merge_dict]
        rw [ih _ (by simpa [keys] using hnd)]
        simp [lookup_setKey, hkk]
      | bool b =>
        simp only [deep_merge_dict]
        rw [ih _ (by simpa [keys] using hnd)]
        simp [lookup_setKey, hkk]
      | int n =>
        simp only [deep_merge_dict]
        rw [ih _ (by simpa [keys] using hnd)]
        simp [lookup_setKey, hkk]
      | str s =>
        simp only [deep_merge_dict]
        rw [ih _ (by simpa [keys] using hnd)]
        simp [lookup_setKey, hkk]
      | seq l =>
        simp only [deep_merge_dict]
        rw [ih _ (by simpa [keys] using hnd)]
        simp [lookup_setKey, hkk]

/-- Witness for C1: the pointwise merge rule evaluated at a concrete pair of
dicts sharing the nested key "a". -/
theorem deep_merge_dict_pointwise_witness :
    lookup (deep_merge_dict
        [("a", .map [("x", .int 1)]), ("b", .int 0)]
        [("a", .map [("y", .int 2)]), ("c", .int 3)]) "a" =
      some (.map [("x", .int 1), ("y", .int 2)]) := by
  have h := deep_merge_dict_pointwise
      [("a", .map [("x", .int 1)]), ("b", .int 0)]
      [("a", .map [("y", .int 2)]), ("c", .int 3)]
      (by simp [keys]) "a"
  rw [h]
  simp [lookup, deep_merge_dict, setKey]

/-! ### More dictionary lemmas -/

theorem lookup_isSome_iff_mem (d : Ydict) (k : String) :
    (lookup d k).isSome ↔ k ∈ keys d := by
  induction d with
  | nil => simp [lookup, keys]
  | cons p rest ih =>
    obtain ⟨k₀, v₀⟩ := p
    by_cases h : k₀ = k
    · subst h; simp [lookup, keys]
    · rw [lookup, if_neg h]
      rw [ih]
      simp only [keys, List.map_cons, List.mem_cons]
      constructor
      · exact Or.inr
      · rintro (hm | hm)
        · exact absurd hm.symm h
        · exact hm

/-! ### Unfolding lemmas for the merge step -/

theorem mergeCompKey_eq_of_map (oc comps : Ydict) (key : String) (d : Ydict)
    (hd : lookup oc key = some (.map d)) :
    mergeCompKey oc comps key =
      (srcItems (pyOrEmptyDict (pyGet comps key (.map [])))).map
        (fun src => setKey oc key (.map (deep_merge_dict d src))) := by
  unfold mergeCompKey
  rw [if_pos (by rw [hd]; rfl)]
  cases hs : srcItems (pyOrEmptyDict (pyGet comps key (.map []))) with
  | error e => simp [hd, hs, Except.map]
  | ok src => simp [hd, hs, Except.map]

theorem mergeCompKey_ok_elim (oc comps : Ydict) (key : String) (oc' : Ydict)
    (d : Ydict) (hd : lookup oc key = some (.map d))
    (h : mergeCompKey oc comps key = .ok oc') :
    ∃ src, srcItems (pyOrEmptyDict (pyGet comps key (.map []))) = .ok src ∧
      oc' = setKey oc key (.map (deep_merge_dict d src)) := by
  rw [mergeCompKey_eq_of_map oc comps key d hd] at h
  cases hs : srcItems (pyOrEmptyDict (pyGet comps key (.map []))) with
  | error e => rw [hs] at h; simp [Except.map] at h
  | ok src =>
    rw [hs] at h
    simp [Except.map] at h
    exact ⟨src, rfl, h.symm⟩

/-- The merge step rewritten for an accumulator whose `paths` / `components`
/ `tags` entries have the shapes the script establishes (`pd`, `oc`, `acc`):
a helper form used to reason about `mergeStep`, equal to it by
`mergeStep_eq_of_shape`. -/
def mergeStepShaped (out : Ydict) (seen : List YVal) (spec : Ydict)
    (pd oc : Ydict) (acc : List YVal) : Except String (Ydict × List YVal) := do
  let src ← srcItems (pyGet spec "paths" (.map []))
  let comps ← getComps spec
  let oc1 ← mergeCompKey oc comps "schemas"
  let oc2 ← mergeCompKey oc1 comps "securitySchemes"
  let oc3 ← mergeCompKey oc2 comps "parameters"
  let oc4 ← mergeCompKey oc3 comps "responses"
  let tags ← getTags spec
  let st ← tags.foldlM tagStep (seen, acc)
  Except.ok (setKey (setKey (setKey out "paths" (.map (deep_merge_dict pd src)))
        "components" (.map oc4)) "tags" (.seq st.2), st.1)

theorem mergeStep_eq_of_shape (out : Ydict) (seen : List YVal) (spec : Ydict)
    (pd oc : Ydict) (acc : List YVal)
    (hp : lookup out "paths" = some (.map pd))
    (hc : lookup out "components" = some (.map oc))
    (ht : lookup out "tags" = some (.seq acc)) :
    mergeStep out seen spec = mergeStepShaped out seen spec pd oc acc := by
  simp only [mergeStep, mergeStepShaped]
  cases hs : srcItems (pyGet spec "paths" (.map [])) with
  | error e => simp [Bind.bind, Except.bind]
  | ok src =>
    simp only [Bind.bind, Except.bind, hp]
    have hc' : lookup (setKey out "paths" (.map (deep_merge_dict pd src))) "components"
        = some (.map oc) := by
      rw [lookup_setKey, if_neg (by decide), hc]
    simp only [hc']
    have ht' : ∀ (x : YVal) (oc4 : Ydict),
        lookup (setKey (setKey out "paths" x) "components" (.map oc4)) "tags"
          = some (.seq acc) := by
      intro x oc4
      rw [lookup_setKey, if_neg (by decide), lookup_setKey, if_neg (by decide), ht]
    simp only [ht']

theorem mergeStepShaped_ok_elim {out : Ydict} {seen : List YVal} {spec : Ydict}
    {pd oc : Ydict} {acc : List YVal} {res : Ydict × List YVal}
    (h : mergeStepShaped out seen spec pd oc acc = .ok res) :
    ∃ src comps oc1 oc2 oc3 oc4 tags st,
      srcItems (pyGet spec "paths" (.map [])) = .ok src ∧
      getComps spec = .ok comps ∧
      mergeCompKey oc comps "schemas" = .ok oc1 ∧
      mergeCompKey oc1 comps "securitySchemes" = .ok oc2 ∧
      mergeCompKey oc2 comps "parameters" = .ok oc3 ∧
      mergeCompKey oc3 comps "responses" = .ok oc4 ∧
      getTags spec = .ok tags ∧
      tags.foldlM tagStep (seen, acc) = .ok st ∧
      res = (setKey (setKey (setKey out "paths" (.map (deep_merge_dict pd src)))
            "components" (.map oc4)) "tags" (.seq st.2), st.1) := by
  simp only [mergeStepShaped, Bind.bind, Except.bind] at h
  split at h
  · exact absurd h (by simp)
  rename_i src hsrc
  split at h
  · exact absurd h (by simp)
  rename_i comps hcomps
  split at h
  · exact absurd h (by simp)
  rename_i oc1 h1
  split at h
  · exact absurd h (by simp)
  rename_i oc2 h2
  split at h
  · exact absurd h (by simp)
  rename_i oc3 h3
  split at h
  · exact absurd h (by simp)
  rename_i oc4 h4
  split at h
  · exact absurd h (by simp)
  rename_i tags htags
  split at h
  · exact absurd h (by simp)
  rename_i st hst
  simp only [Except.ok.injEq] at h
  exact ⟨src, comps, oc1, oc2, oc3, oc4, tags, st,
    hsrc, hcomps, h1, h2, h3, h4, htags, hst, h.symm⟩

/-- If a lookup succeeds, the returned binding is in the dict. -/
theorem lookup_mem (d : Ydict) (k : String) (v : YVal)
    (h : lookup d k = some v) : (k, v) ∈ d := by
  induction d with
  | nil => simp [lookup] at h
  | cons p rest ih =>
    obtain ⟨k₀, v₀⟩ := p
    by_cases h₀ : k₀ = k
    · subst h₀
      rw [lookup, if_pos rfl] at h
      cases h
      exact List.mem_cons_self _ _
    · rw [lookup, if_neg h₀] at h
      exact List.mem_cons_of_mem _ (ih h)

/-- The top-level shape of the accumulator (the invariant of C9):
the fixed key list — with `servers` appended exactly when the override was
set — a dict at `paths`, a components dict with exactly the four named
sub-dicts, and a sequence at `tags`. -/
def accumShape (out : Ydict) (withServers : Bool) : Prop :=
  keys out = ["openapi", "info", "paths", "components", "tags"] ++
      (if withServers then ["servers"] else []) ∧
  (∃ d, lookup out "paths" = some (.map d)) ∧
  (∃ c, lookup out "components" = some (.map c) ∧
      keys c = ["schemas", "securitySchemes", "parameters", "responses"] ∧
      ∀ k ∈ (["schemas", "securitySchemes", "parameters", "responses"] : List String),
        ∃ d, lookup c k = some (.map d)) ∧
  (∃ l, lookup out "tags" = some (.seq l))

theorem initOut_shape (ds : String) :
    accumShape (initOut ds) (decide (ds ≠ "")) := by
  by_cases h : ds = ""
  · subst h
    refine ⟨by simp [initOut, keys], ⟨[], rfl⟩,
      ⟨[("schemas", .map []), ("securitySchemes", .map []),
        ("parameters", .map []), ("responses", .map [])], rfl, rfl, ?_⟩, ⟨[], rfl⟩⟩
    intro k hk
    simp only [List.mem_cons, List.mem_singleton] at hk
    rcases hk with rfl | rfl | rfl | rfl | hk
    · exact ⟨[], rfl⟩
    · exact ⟨[], rfl⟩
    · exact ⟨[], rfl⟩
    · exact ⟨[], rfl⟩
    · simp at hk
  · have hds : (decide (ds ≠ "")) = true := by simp [h]
    rw [hds]
    simp only [initOut, if_pos h]
    refine ⟨?_, ⟨[], ?_⟩,
      ⟨[("schemas", .map []), ("securitySchemes", .map []),
        ("parameters", .map []), ("responses", .map [])], ?_, rfl, ?_⟩, ⟨[], ?_⟩⟩
    · simp [setKey, keys]
    · simp [setKey, lookup]
    · simp [setKey, lookup]
    · intro k hk
      simp only [List.mem_cons, List.mem_singleton] at hk
      rcases hk with rfl | rfl | rfl | rfl | hk
      · exact ⟨[], rfl⟩
      · exact ⟨[], rfl⟩
      · exact ⟨[], rfl⟩
      · exact ⟨[], rfl⟩
      · simp at hk
    · simp [setKey, lookup]

theorem mergeCompKey_shape_preserved (oc comps : Ydict) (key : String)
    (oc' : Ydict) (h : mergeCompKey oc comps key = .ok oc')
    (dk : Ydict) (hdk : lookup oc key = some (.map dk)) :
    keys oc' = keys oc ∧
    (∀ k dv, k ≠ key → (lookup oc k = some (.map dv) →
        lookup oc' k = some (.map dv))) ∧
    (∃ d, lookup oc' key = some (.map d)) := by
  obtain ⟨src, hs, rfl⟩ := mergeCompKey_ok_elim oc comps key oc' dk hdk h
  have hmem : key ∈ keys oc := by
    have := lookup_mem oc key _ hdk
    exact List.mem_map_of_mem Prod.fst this
  refine ⟨keys_setKey_of_mem _ _ _ hmem, ?_, ?_⟩
  · intro k dv hk hdv
    rw [lookup_setKey, if_neg (fun hh => hk hh.symm)]
    exact hdv
  · rw [lookup_setKey, if_pos rfl]
    exact ⟨_, rfl⟩

theorem mergeStep_shape_preserved (b : Bool) (out : Ydict) (seen : List YVal)
    (spec : Ydict) (out' : Ydict) (seen' : List YVal)
    (hs : accumShape out b) (h : mergeStep out seen spec = .ok (out', seen')) :
    accumShape out' b ∧
    (∀ k, k ≠ "paths" → k ≠ "components" → k ≠ "tags" →
      lookup out' k = lookup out k) := by
  obtain ⟨hkeys, ⟨pd, hp⟩, ⟨oc, hc, hck, hcsub⟩, ⟨acc, ht⟩⟩ := hs
  rw [mergeStep_eq_of_shape out seen spec pd oc acc hp hc ht] at h
  obtain ⟨src, comps, oc1, oc2, oc3, oc4, tags, st, hsrc, hcomps,
    h1, h2, h3, h4, htags, hst, hres⟩ := mergeStepShaped_ok_elim h
  rw [Prod.mk.injEq] at hres
  obtain ⟨ho, hsn⟩ := hres
  subst ho
  -- components sub-container bookkeeping through the four merges
  obtain ⟨d1, hd1⟩ := hcsub "schemas" (by simp)
  obtain ⟨d2, hd2⟩ := hcsub "securitySchemes" (by simp)
  obtain ⟨d3, hd3⟩ := hcsub "parameters" (by simp)
  obtain ⟨d4, hd4⟩ := hcsub "responses" (by simp)
  obtain ⟨hk1, hpres1, hx1⟩ :=
    mergeCompKey_shape_preserved oc comps "schemas" oc1 h1 d1 hd1
  obtain ⟨e1, he1⟩ := hx1
  have hd2a := hpres1 "securitySchemes" d2 (by decide) hd2
  have hd3a := hpres1 "parameters" d3 (by decide) hd3
  have hd4a := hpres1 "responses" d4 (by decide) hd4
  obtain ⟨hk2, hpres2, hx2⟩ :=
    mergeCompKey_shape_preserved oc1 comps "securitySchemes" oc2 h2 d2 hd2a
  obtain ⟨e2, he2⟩ := hx2
  have he1b := hpres2 "schemas" e1 (by decide) he1
  have hd3b := hpres2 "parameters" d3 (by decide) hd3a
  have hd4b := hpres2 "responses" d4 (by decide) hd4a
  obtain ⟨hk3, hpres3, hx3⟩ :=
    mergeCompKey_shape_preserved oc2 comps "parameters" oc3 h3 d3 hd3b
  obtain ⟨e3, he3⟩ := hx3
  have he1c := hpres3 "schemas" e1 (by decide) he1b
  have he2c := hpres3 "securitySchemes" e2 (by decide) he2
  have hd4c := hpres3 "responses" d4 (by decide) hd4b
  obtain ⟨hk4, hpres4, hx4⟩ :=
    mergeCompKey_shape_preserved oc3 comps "responses" oc4 h4 d4 hd4c
  obtain ⟨e4, he4⟩ := hx4
  have he1d := hpres4 "schemas" e1 (by decide) he1c
  have he2d := hpres4 "securitySchemes" e2 (by decide) he2c
  have he3d := hpres4 "parameters" e3 (by decide) he3
  -- membership of the three mutated keys
  have hmp : "paths" ∈ keys out := by rw [hkeys]; simp
  have hmc : "components" ∈ keys (setKey out "paths"
      (.map (deep_merge_dict pd src))) := by
    rw [keys_setKey_of_mem _ _ _ hmp, hkeys]; simp
  have hmt : "tags" ∈ keys (setKey (setKey out "paths"
      (.map (deep_merge_dict pd src))) "components" (.map oc4)) := by
    rw [keys_setKey_of_mem _ _ _ hmc, keys_setKey_of_mem _ _ _ hmp, hkeys]; simp
  have hkeq : keys (setKey (setKey (setKey out "paths"
      (.map (deep_merge_dict pd src))) "components" (.map oc4))
      "tags" (.seq st.2)) = keys out := by
    rw [keys_setKey_of_mem _ _ _ hmt, keys_setKey_of_mem _ _ _ hmc,
      keys_setKey_of_mem _ _ _ hmp]
  refine ⟨⟨by rw [hkeq, hkeys], ⟨deep_merge_dict pd src, ?_⟩,
      ⟨oc4, ?_, by rw [hk4, hk3, hk2, hk1, hck], ?_⟩, ⟨st.2, ?_⟩⟩, ?_⟩
  · rw [lookup_setKey, if_neg (by decide), lookup_setKey, if_neg (by decide),
      lookup_setKey, if_pos rfl]
  · rw [lookup_setKey, if_neg (by decide), lookup_setKey, if_pos rfl]
  · intro k hk
    simp only [List.mem_cons, List.mem_singleton] at hk
    rcases hk with rfl | rfl | rfl | rfl | hk
    · exact ⟨e1, he1d⟩
    · exact ⟨e2, he2d⟩
    · exact ⟨e3, he3d⟩
    · exact ⟨e4, he4⟩
    · simp at hk
  · rw [lookup_setKey, if_pos rfl]
  · intro k hkp hkc hkt
    rw [lookup_setKey, if_neg (fun hh => hkt hh.symm),
      lookup_setKey, if_neg (fun hh => hkc hh.symm),
      lookup_setKey, if_neg (fun hh => hkp hh.symm)]

theorem loadStep_ok_elim {load : String → Except String YVal}
    {st : Ydict × List YVal} {p : String} {res : Ydict × List YVal}
    (h : loadStep load st p = .ok res) :
    ∃ spec, load p = .ok (.map spec) ∧ mergeStep st.1 st.2 spec = .ok res := by
  simp only [loadStep, Bind.bind, Except.bind] at h
  split at h
  · exact absurd h (by simp)
  rename_i doc hdoc
  cases doc with
  | map spec => exact ⟨spec, hdoc, h⟩
  | null => exact absurd h (by simp)
  | bool b => exact absurd h (by simp)
  | int n => exact absurd h (by simp)
  | str s => exact absurd h (by simp)
  | seq l => exact absurd h (by simp)

theorem mergeFold_shape (load : String → Except String YVal) (b : Bool)
    (paths : List String) (st st' : Ydict × List YVal)
    (h : paths.foldlM (loadStep load) st = .ok st')
    (hs : accumShape st.1 b) :
    accumShape st'.1 b ∧
    (∀ k, k ≠ "paths" → k ≠ "components" → k ≠ "tags" →
      lookup st'.1 k = lookup st.1 k) := by
  induction paths generalizing st with
  | nil =>
    simp only [List.foldlM, pure, Except.pure, Except.ok.injEq] at h
    subst h
    exact ⟨hs, fun _ _ _ _ => rfl⟩
  | cons p ps ih =>
    simp only [List.foldlM, Bind.bind, Except.bind] at h
    cases hl : loadStep load st p with
    | error e => rw [hl] at h; exact absurd h (by simp)
    | ok st1 =>
      rw [hl] at h
      obtain ⟨o1, s1⟩ := st1
      obtain ⟨spec, hlp, hm⟩ := loadStep_ok_elim hl
      obtain ⟨hs1, hpres⟩ :=
        mergeStep_shape_preserved b st.1 st.2 spec o1 s1 hs hm
      obtain ⟨hs', hpres'⟩ := ih (o1, s1) h hs1
      exact ⟨hs', fun k h1 h2 h3 => (hpres' k h1 h2 h3).trans (hpres k h1 h2 h3)⟩

theorem merge_specs_ok_elim {load : String → Except String YVal}
    {env : Option String} {paths : List String} {out : Ydict}
    (h : merge_specs load env paths = .ok out) :
    ∃ st', paths.foldlM (loadStep load)
        (initOut (defaultServerOf env), []) = .ok st' ∧ out = st'.1 := by
  simp only [merge_specs, Bind.bind, Except.bind] at h
  split at h
  · exact absurd h (by simp)
  rename_i st' hst
  simp only [Except.ok.injEq] at h
  exact ⟨st', hst, h.symm⟩

theorem merge_specs_shape {load : String → Except String YVal}
    {env : Option String} {paths : List String} {out : Ydict}
    (h : merge_specs load env paths = .ok out) :
    accumShape out (decide (defaultServerOf env ≠ "")) ∧
    (∀ k, k ≠ "paths" → k ≠ "components" → k ≠ "tags" →
      lookup out k = lookup (initOut (defaultServerOf env)) k) := by
  obtain ⟨st', hf, rfl⟩ := merge_specs_ok_elim h
  exact mergeFold_shape load _ paths _ st' hf (initOut_shape _)

theorem initOut_servers (ds : String) :
    lookup (initOut ds) "servers" =
      if ds ≠ "" then
        some (.seq [.map [("url", .str ds), ("description", .str "Default")]])
      else none := by
  by_cases h : ds = ""
  · subst h; simp [initOut, lookup]
  · simp only [initOut]
    rw [if_pos h, if_pos h]
    simp [setKey, lookup]

/-! ### C9: the accumulator's top-level shape is an invariant -/

/-- C9.  The accumulator's top-level shape is an invariant of every merge
step: `initOut` establishes the fixed key set — format-version marker,
info metadata, paths container, components container with exactly the four
named sub-containers, tags sequence, plus the optional pre-set `servers`
entry — before the first input is processed, and a successful merge step
neither adds, removes nor retypes a top-level key: it only repopulates the
`paths`, `components` and `tags` containers, every other top-level value
being left untouched. -/
theorem accumulator_shape_invariant :
    (∀ ds : String, accumShape (initOut ds) (decide (ds ≠ ""))) ∧
    (∀ (b : Bool) (out : Ydict) (seen : List YVal) (spec out' : Ydict)
        (seen' : List YVal), accumShape out b →
      mergeStep out seen spec = .ok (out', seen') →
      accumShape out' b ∧
      (∀ k, k ≠ "paths" → k ≠ "components" → k ≠ "tags" →
        lookup out' k = lookup out k)) :=
  ⟨initOut_shape, fun b out seen spec out' seen' hs h =>
    mergeStep_shape_preserved b out seen spec out' seen' hs h⟩

/-- Witness for C9: the invariant holds of the seeded accumulator for the
override value "https://e", and is preserved by one merge step on the empty
input document. -/
theorem accumulator_shape_invariant_witness :
    accumShape (initOut "https://e") true ∧
    accumShape
      [("openapi", .str "3.0.3"),
       ("info", .map [("title", .str "FocusNest - All Services"),
                      ("version", .str "1.0.0")]),
       ("paths", .map []),
       ("components", .map [("schemas", .map []), ("securitySchemes", .map []),
                            ("parameters", .map []), ("responses", .map [])]),
       ("tags", .seq []),
       ("servers", .seq [.map [("url", .str "https://e"),
                               ("description", .str "Default")]])] true := by
  have h0 : (decide (("https://e" : String) ≠ "")) = true := by decide
  have h1 := accumulator_shape_invariant.1 "https://e"
  rw [h0] at h1
  have hstep : mergeStep (initOut "https://e") [] [] = .ok
      ([("openapi", .str "3.0.3"),
        ("info", .map [("title", .str "FocusNest - All Services"),
                       ("version", .str "1.0.0")]),
        ("paths", .map []),
        ("components", .map [("schemas", .map []), ("securitySchemes", .map []),
                             ("parameters", .map []), ("responses", .map [])]),
        ("tags", .seq []),
        ("servers", .seq [.map [("url", .str "https://e"),
                                ("description", .str "Default")]])], []) := by
    simp [mergeStep, mergeCompKey, getComps, getTags, srcItems, pyGet,
      pyOrEmptyDict, pyOrEmptyList, truthy, initOut, setKey, lookup,
      deep_merge_dict, tagStep, List.foldlM, Bind.bind, Except.bind,
      pure, Except.pure]
  exact ⟨h1, (accumulator_shape_invariant.2 true (initOut "https://e")
    [] [] _ [] h1 hstep).1⟩

/-! ### C3: the servers entry comes only from the environment override -/

/-- C3.  For every load function, environment value and input list, a
successful merge yields a `servers` entry iff the whitespace-stripped
`MERGE_DEFAULT_SERVER` value is non-empty, in which case it is exactly the
one-element sequence `[{url: <stripped value>, description: "Default"}]`;
since this holds for arbitrary input documents, `servers` entries of the
inputs are never read or merged, and with the override unset or empty the
output has no `servers` key at all. -/
theorem merge_specs_servers (load : String → Except String YVal)
    (env : Option String) (paths : List String) (out : Ydict)
    (h : merge_specs load env paths = .ok out) :
    lookup out "servers" =
      if defaultServerOf env ≠ "" then
        some (.seq [.map [("url", .str (defaultServerOf env)),
                          ("description", .str "Default")]])
      else none := by
  have hpres := (merge_specs_shape h).2 "servers"
    (by decide) (by decide) (by decide)
  rw [hpres, initOut_servers]

/-- Witness for C3: on an input document that itself defines `servers`,
the merged output's `servers` entry comes from the (stripped) override. -/
theorem merge_specs_servers_witness :
    merge_specs (fun _ => .ok (.map [("servers",
        .seq [.map [("url", .str "http://in")]])])) (some " https://u ") ["a"]
      = .ok
      [("openapi", .str "3.0.3"),
       ("info", .map [("title", .str "FocusNest - All Services"),
                      ("version", .str "1.0.0")]),
       ("paths", .map []),
       ("components", .map [("schemas", .map []), ("securitySchemes", .map []),
                            ("parameters", .map []), ("responses", .map [])]),
       ("tags", .seq []),
       ("servers", .seq [.map [("url", .str "https://u"),
                               ("description", .str "Default")]])] ∧
    lookup
      [("openapi", .str "3.0.3"),
       ("info", .map [("title", .str "FocusNest - All Services"),
                      ("version", .str "1.0.0")]),
       ("paths", .map []),
       ("components", .map [("schemas", .map []), ("securitySchemes", .map []),
                            ("parameters", .map []), ("responses", .map [])]),
       ("tags", .seq []),
       ("servers", .seq [.map [("url", .str "https://u"),
                               ("description", .str "Default")]])] "servers"
      = some (.seq [.map [("url", .str "https://u"),
                          ("description", .str "Default")]]) := by
  have henv : defaultServerOf (some " https://u ") = "https://u" := by decide
  have heval : merge_specs (fun _ => .ok (.map [("servers",
      .seq [.map [("url", .str "http://in")]])])) (some " https://u ") ["a"]
      = .ok
      [("openapi", .str "3.0.3"),
       ("info", .map [("title", .str "FocusNest - All Services"),
                      ("version", .str "1.0.0")]),
       ("paths", .map []),
       ("components", .map [("schemas", .map []), ("securitySchemes", .map []),
                            ("parameters", .map []), ("responses", .map [])]),
       ("tags", .seq []),
       ("servers", .seq [.map [("url", .str "https://u"),
                               ("description", .str "Default")]])] := by
    simp [merge_specs, henv, loadStep, mergeStep, mergeCompKey, getComps,
      getTags, srcItems, pyGet, pyOrEmptyDict, pyOrEmptyList, truthy, initOut,
      setKey, lookup, deep_merge_dict, tagStep, List.foldlM, Bind.bind,
      Except.bind, pure, Except.pure]
  refine ⟨heval, ?_⟩
  have := merge_specs_servers _ _ _ _ heval
  rw [henv] at this
  rw [this, if_pos (by decide)]

/-! ### C8: serialized key order -/

/-- Counterexample to C8 as stated: with the override set, the serialized
top-level key order puts `servers` LAST (after `tags`), not first — the
head of the key order is "openapi". -/
theorem servers_key_not_first :
    (merge_specs (fun _ => .ok (.map [])) (some "https://e") ["a"]).map
        (fun out => safe_dump_key_order out false) =
      .ok ["openapi", "info", "paths", "components", "tags", "servers"] ∧
    (["openapi", "info", "paths", "components", "tags", "servers"]
        : List String).head? ≠ some "servers" := by
  constructor
  · have henv : defaultServerOf (some "https://e") = "https://e" := by decide
    simp [merge_specs, henv, loadStep, mergeStep, mergeCompKey, getComps,
      getTags, srcItems, pyGet, pyOrEmptyDict, pyOrEmptyList, truthy, initOut,
      setKey, lookup, deep_merge_dict, tagStep, List.foldlM, Bind.bind,
      Except.bind, pure, Except.pure, safe_dump_key_order, Except.map, keys]
  · decide

/-- C8 (amended).  The serialized output preserves the key insertion order
produced by the merge algorithm with no alphabetical sorting; that order is
the fixed `openapi, info, paths, components, tags` sequence with the
optional `servers` key LAST (not first) whenever the environment override
is set. -/
theorem merge_specs_key_order (load : String → Except String YVal)
    (env : Option String) (paths : List String) (out : Ydict)
    (h : merge_specs load env paths = .ok out) :
    safe_dump_key_order out false =
      ["openapi", "info", "paths", "components", "tags"] ++
        (if defaultServerOf env ≠ "" then ["servers"] else []) := by
  have hk := (merge_specs_shape h).1.1
  rw [safe_dump_key_order, if_neg (by simp)]
  show keys out = _
  rw [hk]
  by_cases hds : defaultServerOf env ≠ ""
  · rw [if_pos hds, if_pos (by simpa using hds)]
  · rw [if_neg hds, if_neg (by simpa using hds)]

/-- Witness for C8 (amended) at a concrete input with the override set. -/
theorem merge_specs_key_order_witness :
    merge_specs (fun _ => .ok (.map [("paths", .map [("/x", .map [])])]))
        (some "https://w") ["a"] = .ok
      [("openapi", .str "3.0.3"),
       ("info", .map [("title", .str "FocusNest - All Services"),
                      ("version", .str "1.0.0")]),
       ("paths", .map [("/x", .map [])]),
       ("components", .map [("schemas", .map []), ("securitySchemes", .map []),
                            ("parameters", .map []), ("responses", .map [])]),
       ("tags", .seq []),
       ("servers", .seq [.map [("url", .str "https://w"),
                               ("description", .str "Default")]])] ∧
    safe_dump_key_order
      [("openapi", .str "3.0.3"),
       ("info", .map [("title", .str "FocusNest - All Services"),
                      ("version", .str "1.0.0")]),
       ("paths", .map [("/x", .map [])]),
       ("components", .map [("schemas", .map []), ("securitySchemes", .map []),
                            ("parameters", .map []), ("responses", .map [])]),
       ("tags", .seq []),
       ("servers", .seq [.map [("url", .str "https://w"),
                               ("description", .str "Default")]])] false =
      ["openapi", "info", "paths", "components", "tags", "servers"] := by
  have henv : defaultServerOf (some "https://w") = "https://w" := by decide
  have heval : merge_specs (fun _ => .ok (.map [("paths", .map [("/x", .map [])])]))
      (some "https://w") ["a"] = .ok
      [("openapi", .str "3.0.3"),
       ("info", .map [("title", .str "FocusNest - All Services"),
                      ("version", .str "1.0.0")]),
       ("paths", .map [("/x", .map [])]),
       ("components", .map [("schemas", .map []), ("securitySchemes", .map []),
                            ("parameters", .map []), ("responses", .map [])]),
       ("tags", .seq []),
       ("servers", .seq [.map [("url", .str "https://w"),
                               ("description", .str "Default")]])] := by
    simp [merge_specs, henv, loadStep, mergeStep, mergeCompKey, getComps,
      getTags, srcItems, pyGet, pyOrEmptyDict, pyOrEmptyList, truthy, initOut,
      setKey, lookup, deep_merge_dict, tagStep, List.foldlM, Bind.bind,
      Except.bind, pure, Except.pure]
  refine ⟨heval, ?_⟩
  have := merge_specs_key_order _ _ _ _ heval
  rw [henv] at this
  rw [this, if_pos (by decide)]
  rfl

/-! ### C5: usage error on too few arguments -/

/-- C5.  With fewer than two positional arguments (`sys.argv` shorter than
3 entries, counting the program name at index 0) `main` prints the usage
line to standard output, exits with status code 1, and creates or modifies
no output file; with two or more positional arguments it proceeds to merge
`argv[2:]`, writing `argv[1]` only if the merge succeeds. -/
theorem main_run_usage (load : String → Except String YVal)
    (env : Option String) (argv : List String) :
    (argv.length < 3 →
      main_run load env argv =
        { exitCode := 1, stdoutLines := [usageMsg], stderrDiag := none,
          written := none }) ∧
    (3 ≤ argv.length →
      main_run load env argv =
        match merge_specs load env (argv.drop 2) with
        | .error e => ⟨1, [], some e, none⟩
        | .ok merged =>
            ⟨0, ["Wrote " ++ argv.getD 1 "" ++ " from " ++
              toString (argv.drop 2).length ++ " inputs"], none,
              some (argv.getD 1 "", merged)⟩) := by
  constructor
  · intro h
    simp only [main_run, if_pos h]
  · intro h
    have h' : ¬ argv.length < 3 := by omega
    simp only [main_run, if_neg h']

/-- Witness for C5: one invocation with a single argument (usage error) and
one with two positional arguments (merge proceeds and writes). -/
theorem main_run_usage_witness :
    main_run (fun _ => .ok (.map [])) none ["merge_openapi.py", "out.yaml"] =
      { exitCode := 1, stdoutLines := [usageMsg], stderrDiag := none,
        written := none } ∧
    main_run (fun _ => .ok (.map [])) none ["merge_openapi.py", "out.yaml", "a.yaml"] =
      { exitCode := 0, stdoutLines := ["Wrote out.yaml from 1 inputs"],
        stderrDiag := none, written := some ("out.yaml",
        [("openapi", .str "3.0.3"),
         ("info", .map [("title", .str "FocusNest - All Services"),
                        ("version", .str "1.0.0")]),
         ("paths", .map []),
         ("components", .map [("schemas", .map []), ("securitySchemes", .map []),
                              ("parameters", .map []), ("responses", .map [])]),
         ("tags", .seq [])]) } := by
  constructor
  · exact (main_run_usage _ _ _).1 (by decide)
  · have heval : merge_specs (fun _ => .ok (.map [])) none ["a.yaml"] = .ok
        [("openapi", .str "3.0.3"),
         ("info", .map [("title", .str "FocusNest - All Services"),
                        ("version", .str "1.0.0")]),
         ("paths", .map []),
         ("components", .map [("schemas", .map []), ("securitySchemes", .map []),
                              ("parameters", .map []), ("responses", .map [])]),
         ("tags", .seq [])] := by
      simp [merge_specs, defaultServerOf, pyStrip, loadStep, mergeStep,
        mergeCompKey, getComps, getTags, srcItems, pyGet, pyOrEmptyDict,
        pyOrEmptyList, truthy, initOut, setKey, lookup, deep_merge_dict,
        tagStep, List.foldlM, Bind.bind, Except.bind, pure, Except.pure]
    have h2 := (main_run_usage (fun _ => .ok (.map [])) none
      ["merge_openapi.py", "out.yaml", "a.yaml"]).2 (by decide)
    rw [h2]
    have hdrop : (["merge_openapi.py", "out.yaml", "a.yaml"] : List String).drop 2
        = ["a.yaml"] := rfl
    rw [hdrop, heval]
    rfl

/-! ### C4: a failing input aborts the run with no output -/

theorem mergeFold_error_of_load_failure (load : String → Except String YVal)
    (paths : List String) (st : Ydict × List YVal)
    (hfail : ∃ p ∈ paths, ∃ e, load p = .error e) :
    ∃ e', paths.foldlM (loadStep load) st = .error e' := by
  induction paths generalizing st with
  | nil => simp at hfail
  | cons q rest ih =>
    obtain ⟨p, hp, e, he⟩ := hfail
    simp only [List.foldlM, Bind.bind, Except.bind]
    cases hl : loadStep load st q with
    | error e2 => exact ⟨e2, rfl⟩
    | ok st1 =>
      rcases List.mem_cons.mp hp with rfl | hprest
      · obtain ⟨spec, hlp, _⟩ := loadStep_ok_elim hl
        rw [hlp] at he
        cases he
      · exact ih st1 ⟨p, hprest, e, he⟩

theorem merge_specs_error_of_load_failure (load : String → Except String YVal)
    (env : Option String) (paths : List String)
    (hfail : ∃ p ∈ paths, ∃ e, load p = .error e) :
    ∃ e', merge_specs load env paths = .error e' := by
  obtain ⟨e', hf⟩ := mergeFold_error_of_load_failure load paths
    (initOut (defaultServerOf env), []) hfail
  exact ⟨e', by simp only [merge_specs, Bind.bind, Except.bind, hf]⟩

/-- C4.  If loading any input fails — the model's `load` covers a missing
or unreadable file and an unparseable document — the run terminates with
exit status 1 (non-zero), nothing is printed to stdout, NO output file is
written (not even a partial one), and the stderr diagnostic is exactly the
propagated load/merge error (not caught, not recovered; the error text of a
real run is the Python exception naming the failing file). -/
theorem main_aborts_on_input_failure (load : String → Except String YVal)
    (env : Option String) (argv : List String)
    (hlen : 3 ≤ argv.length)
    (hfail : ∃ p ∈ argv.drop 2, ∃ e, load p = .error e) :
    ∃ e', merge_specs load env (argv.drop 2) = .error e' ∧
      main_run load env argv =
        { exitCode := 1, stdoutLines := [], stderrDiag := some e',
          written := none } := by
  obtain ⟨e', hm⟩ := merge_specs_error_of_load_failure load env _ hfail
  refine ⟨e', hm, ?_⟩
  have h' : ¬ argv.length < 3 := by omega
  simp only [main_run, if_neg h', hm]

/-- Witness for C4: a load function failing on "missing.yaml" with a
diagnostic naming that file; the run exits 1, writes nothing, and surfaces
exactly that diagnostic. -/
theorem main_aborts_on_input_failure_witness :
    main_run (fun p => .error ("FileNotFoundError: " ++ p)) none
        ["merge_openapi.py", "out.yaml", "missing.yaml"] =
      { exitCode := 1, stdoutLines := [],
        stderrDiag := some "FileNotFoundError: missing.yaml",
        written := none } := by
  obtain ⟨e', hm, hr⟩ := main_aborts_on_input_failure
    (fun p => .error ("FileNotFoundError: " ++ p)) none
    ["merge_openapi.py", "out.yaml", "missing.yaml"] (by decide)
    ⟨"missing.yaml", by decide, "FileNotFoundError: missing.yaml", rfl⟩
  have he : e' = "FileNotFoundError: missing.yaml" := by
    have : merge_specs (fun p => .error ("FileNotFoundError: " ++ p)) none
        ["missing.yaml"] = .error "FileNotFoundError: missing.yaml" := rfl
    rw [show (["merge_openapi.py", "out.yaml", "missing.yaml"] : List String).drop 2
      = ["missing.yaml"] from rfl] at hm
    rw [this] at hm
    exact (Except.error.injEq _ _ ▸ hm).symm
  rw [he] at hr
  exact hr

/-! ### C10: absent or null sections contribute nothing -/

theorem mergeCompKey_absent_id (oc comps : Ydict) (key : String) (dk : Ydict)
    (hd : lookup oc key = some (.map dk)) (hnd : (keys oc).Nodup)
    (hnull : lookup comps key = none ∨ lookup comps key = some .null) :
    mergeCompKey oc comps key = .ok oc := by
  rw [mergeCompKey_eq_of_map oc comps key dk hd]
  have hsrc : srcItems (pyOrEmptyDict (pyGet comps key (.map []))) = .ok [] := by
    rcases hnull with h | h <;> simp [pyGet, h, pyOrEmptyDict, srcItems, truthy]
  rw [hsrc]
  simp only [Except.map]
  rw [show deep_merge_dict dk [] = dk by simp [deep_merge_dict]]
  rw [setKey_lookup_self oc key (.map dk) hnd hd]

/-- C10.  An input document in which `paths`, `components` and `tags` are
each absent or null merges successfully and leaves the accumulator and the
seen-tags set exactly unchanged; moreover, inside a present components
mapping, a sub-container (schemas / securitySchemes / parameters /
responses) that is absent or null leaves the corresponding accumulator
sub-container untouched. -/
theorem absent_or_null_sections_contribute_nothing :
    (∀ (b : Bool) (out : Ydict) (seen : List YVal) (spec : Ydict),
      accumShape out b →
      (lookup spec "paths" = none ∨ lookup spec "paths" = some .null) →
      (lookup spec "components" = none ∨ lookup spec "components" = some .null) →
      (lookup spec "tags" = none ∨ lookup spec "tags" = some .null) →
      mergeStep out seen spec = .ok (out, seen)) ∧
    (∀ (oc comps : Ydict) (key : String) (dk : Ydict),
      lookup oc key = some (.map dk) → (keys oc).Nodup →
      (lookup comps key = none ∨ lookup comps key = some .null) →
      mergeCompKey oc comps key = .ok oc) := by
  constructor
  · intro b out seen spec hs hpn hcn htn
    obtain ⟨hkeys, ⟨pd, hp⟩, ⟨oc, hc, hck, hcsub⟩, ⟨acc, ht⟩⟩ := hs
    have hndout : (keys out).Nodup := by rw [hkeys]; cases b <;> decide
    have hndoc : (keys oc).Nodup := by rw [hck]; decide
    rw [mergeStep_eq_of_shape out seen spec pd oc acc hp hc ht]
    have hsrc : srcItems (pyGet spec "paths" (.map [])) = .ok [] := by
      rcases hpn with h | h <;> simp [pyGet, h, srcItems, truthy]
    have hcomps : getComps spec = .ok [] := by
      rcases hcn with h | h <;> simp [getComps, pyGet, h, pyOrEmptyDict, truthy]
    have htags : getTags spec = .ok [] := by
      rcases htn with h | h <;> simp [getTags, pyGet, h, pyOrEmptyList, truthy]
    obtain ⟨d1, hd1⟩ := hcsub "schemas" (by simp)
    obtain ⟨d2, hd2⟩ := hcsub "securitySchemes" (by simp)
    obtain ⟨d3, hd3⟩ := hcsub "parameters" (by simp)
    obtain ⟨d4, hd4⟩ := hcsub "responses" (by simp)
    have h1 := mergeCompKey_absent_id oc [] "schemas" d1 hd1 hndoc (Or.inl rfl)
    have h2 := mergeCompKey_absent_id oc [] "securitySchemes" d2 hd2 hndoc (Or.inl rfl)
    have h3 := mergeCompKey_absent_id oc [] "parameters" d3 hd3 hndoc (Or.inl rfl)
    have h4 := mergeCompKey_absent_id oc [] "responses" d4 hd4 hndoc (Or.inl rfl)
    simp only [mergeStepShaped, Bind.bind, Except.bind, hsrc, hcomps,
      h1, h2, h3, h4, htags, List.foldlM, pure, Except.pure]
    rw [show deep_merge_dict pd [] = pd by simp [deep_merge_dict]]
    rw [setKey_lookup_self out "paths" (.map pd) hndout hp]
    rw [setKey_lookup_self out "components" (.map oc) hndout hc]
    rw [setKey_lookup_self out "tags" (.seq acc) hndout ht]
  · intro oc comps key dk hd hnd hnull
    exact mergeCompKey_absent_id oc comps key dk hd hnd hnull

/-- Witness for C10: a document with null `paths` and absent `components`
and `tags` leaves the seeded accumulator unchanged, and a null `schemas`
sub-container leaves a populated components sub-dict unchanged. -/
theorem absent_or_null_sections_witness :
    mergeStep (initOut "") [] [("paths", .null)] = .ok (initOut "", []) ∧
    mergeCompKey [("schemas", .map [("User", .int 1)])] [("schemas", .null)]
      "schemas" = .ok [("schemas", .map [("User", .int 1)])] := by
  constructor
  · exact absent_or_null_sections_contribute_nothing.1 false (initOut "") []
      [("paths", .null)] (initOut_shape "")
      (Or.inr rfl) (Or.inl rfl) (Or.inl rfl)
  · exact absent_or_null_sections_contribute_nothing.2
      [("schemas", .map [("User", .int 1)])] [("schemas", .null)]
      "schemas" [("User", .int 1)] rfl (by decide) (Or.inr rfl)

/-! ### C7: merge precedence follows input order -/

/-- Descend through nested mappings along a key path. -/
def lookupPath : YVal → List String → Option YVal
  | v, [] => some v
  | .map d, k :: ks =>
      (match lookup d k with
       | some v => lookupPath v ks
       | none => none)
  | _, _ :: _ => none

/-- Is the value a mapping? -/
def isMapB : YVal → Bool
  | .map _ => true
  | _ => false

/-- The mappings traversed along a key path all have duplicate-free keys
(automatic for parsed Python dicts). -/
def nodupAlongB : YVal → List String → Bool
  | .map d, k :: ks =>
      decide ((keys d).Nodup) &&
        (match lookup d k with
         | some v => nodupAlongB v ks
         | none => true)
  | _, _ => true

/-- A non-mapping value reachable in the merge source wins over whatever the
destination holds at the same path. -/
theorem deep_merge_dict_leaf_wins (dst src : Ydict) (π : List String) (v : YVal)
    (hnd : nodupAlongB (.map src) π = true)
    (hv : lookupPath (.map src) π = some v)
    (hleaf : isMapB v = false) :
    lookupPath (.map (deep_merge_dict dst src)) π = some v := by
  induction π generalizing dst src with
  | nil =>
    simp only [lookupPath, Option.some.injEq] at hv
    rw [← hv] at hleaf
    simp [isMapB] at hleaf
  | cons k ks ih =>
    simp only [lookupPath] at hv ⊢
    simp only [nodupAlongB, Bool.and_eq_true, decide_eq_true_eq] at hnd
    obtain ⟨hndk, hrest⟩ := hnd
    cases hlk : lookup src k with
    | none => rw [hlk] at hv; exact absurd hv (by simp)
    | some w =>
      rw [hlk] at hv hrest
      have hpt := deep_merge_dict_pointwise dst src hndk k
      rw [hlk] at hpt
      cases w with
      | map s0 =>
        cases hdk : lookup dst k with
        | some u =>
          cases u with
          | map d0 =>
            rw [hdk] at hpt
            rw [hpt]
            exact ih d0 s0 hrest hv
          | null => rw [hdk] at hpt; rw [hpt]; exact hv
          | bool b => rw [hdk] at hpt; rw [hpt]; exact hv
          | int n => rw [hdk] at hpt; rw [hpt]; exact hv
          | str s => rw [hdk] at hpt; rw [hpt]; exact hv
          | seq l => rw [hdk] at hpt; rw [hpt]; exact hv
        | none => rw [hdk] at hpt; rw [hpt]; exact hv
      | null => rw [hpt]; exact hv
      | bool b => rw [hpt]; exact hv
      | int n => rw [hpt]; exact hv
      | str s => rw [hpt]; exact hv
      | seq l => rw [hpt]; exact hv

/-- A successful merge step on a document whose `paths` mapping reaches a
non-mapping value `v` along `π` leaves `v` at `π` in the accumulator's
`paths`. -/
theorem mergeStep_paths_leaf (b : Bool) (out : Ydict) (seen : List YVal)
    (spec : Ydict) (out' : Ydict) (seen' : List YVal) (pb : Ydict)
    (π : List String) (v : YVal)
    (hs : accumShape out b)
    (h : mergeStep out seen spec = .ok (out', seen'))
    (hpb : lookup spec "paths" = some (.map pb))
    (hnd : nodupAlongB (.map pb) π = true)
    (hv : lookupPath (.map pb) π = some v)
    (hleaf : isMapB v = false) :
    ∃ pm, lookup out' "paths" = some (.map pm) ∧
      lookupPath (.map pm) π = some v := by
  obtain ⟨hkeys, ⟨pd, hp⟩, ⟨oc, hc, hck, hcsub⟩, ⟨acc, ht⟩⟩ := hs
  rw [mergeStep_eq_of_shape out seen spec pd oc acc hp hc ht] at h
  obtain ⟨src, comps, oc1, oc2, oc3, oc4, tags, st, hsrc, hcomps,
    h1, h2, h3, h4, htags, hst, hres⟩ := mergeStepShaped_ok_elim h
  rw [Prod.mk.injEq] at hres
  obtain ⟨ho, _⟩ := hres
  subst ho
  have hpbe : pb ≠ [] := by
    intro he
    subst he
    cases π with
    | nil =>
      simp only [lookupPath, Option.some.injEq] at hv
      rw [← hv] at hleaf
      simp [isMapB] at hleaf
    | cons k ks => simp [lookupPath, lookup] at hv
  have htr : truthy (.map pb) = true := by
    cases pb with
    | nil => exact absurd rfl hpbe
    | cons a l => rfl
  have hsrc' : src = pb := by
    rw [show pyGet spec "paths" (.map []) = .map pb by
      simp [pyGet, hpb]] at hsrc
    simp only [srcItems] at hsrc
    rw [if_pos htr] at hsrc
    exact (Except.ok.inj hsrc).symm
  subst hsrc'
  refine ⟨deep_merge_dict pd src, ?_, ?_⟩
  · rw [lookup_setKey, if_neg (by decide), lookup_setKey, if_neg (by decide),
      lookup_setKey, if_pos rfl]
  · exact deep_merge_dict_leaf_wins pd src π v hnd hv hleaf

theorem merge_specs_two_elim {load : String → Except String YVal}
    {env : Option String} {p q : String} {out : Ydict}
    (h : merge_specs load env [p, q] = .ok out) :
    ∃ st1 st2, loadStep load (initOut (defaultServerOf env), []) p = .ok st1 ∧
      loadStep load st1 q = .ok st2 ∧ out = st2.1 := by
  obtain ⟨st', hf, rfl⟩ := merge_specs_ok_elim h
  simp only [List.foldlM, Bind.bind, Except.bind] at hf
  split at hf
  · exact absurd hf (by simp)
  rename_i st1 hl1
  split at hf
  · exact absurd hf (by simp)
  rename_i st2 hl2
  simp only [pure, Except.pure, Except.ok.injEq] at hf
  exact ⟨st1, st2, hl1, hl2, by rw [hf]⟩

/-- C7.  Merge precedence follows input order: if inputs `A` and `B` both
reach a (possibly conflicting) non-mapping leaf along the key path `π`
inside their `paths` mappings, then a successful merge of `[A, B]` ends
with B's leaf value at `π` and a successful merge of `[B, A]` ends with A's
leaf value at `π` — on every overlapping leaf key, the last-listed input
wins. -/
theorem merge_specs_order_sensitivity (load : String → Except String YVal)
    (env : Option String) (pA pB : String) (A B : Ydict)
    (hlA : load pA = .ok (.map A)) (hlB : load pB = .ok (.map B))
    (pa pb : Ydict)
    (hpa : lookup A "paths" = some (.map pa))
    (hpb : lookup B "paths" = some (.map pb))
    (π : List String) (va vb : YVal)
    (hva : lookupPath (.map pa) π = some va)
    (hnda : nodupAlongB (.map pa) π = true)
    (hvb : lookupPath (.map pb) π = some vb)
    (hndb : nodupAlongB (.map pb) π = true)
    (hlva : isMapB va = false) (hlvb : isMapB vb = false) :
    (∀ outAB, merge_specs load env [pA, pB] = .ok outAB →
      ∃ pm, lookup outAB "paths" = some (.map pm) ∧
        lookupPath (.map pm) π = some vb) ∧
    (∀ outBA, merge_specs load env [pB, pA] = .ok outBA →
      ∃ pm, lookup outBA "paths" = some (.map pm) ∧
        lookupPath (.map pm) π = some va) := by
  constructor
  · intro outAB h
    obtain ⟨st1, st2, hl1, hl2, rfl⟩ := merge_specs_two_elim h
    obtain ⟨spec1, hld1, hm1⟩ := loadStep_ok_elim hl1
    obtain ⟨spec2, hld2, hm2⟩ := loadStep_ok_elim hl2
    rw [hlB] at hld2
    have hspec2 : spec2 = B := by
      have := Except.ok.inj hld2
      exact (YVal.map.inj this).symm
    subst hspec2
    obtain ⟨o1, s1⟩ := st1
    have hs1 : accumShape o1 (decide (defaultServerOf env ≠ "")) :=
      (mergeStep_shape_preserved _ _ _ _ _ _ (initOut_shape _) hm1).1
    obtain ⟨o2, s2⟩ := st2
    exact mergeStep_paths_leaf _ o1 s1 spec2 o2 s2 pb π vb hs1 hm2 hpb hndb hvb hlvb
  · intro outBA h
    obtain ⟨st1, st2, hl1, hl2, rfl⟩ := merge_specs_two_elim h
    obtain ⟨spec1, hld1, hm1⟩ := loadStep_ok_elim hl1
    obtain ⟨spec2, hld2, hm2⟩ := loadStep_ok_elim hl2
    rw [hlA] at hld2
    have hspec2 : spec2 = A := by
      have := Except.ok.inj hld2
      exact (YVal.map.inj this).symm
    subst hspec2
    obtain ⟨o1, s1⟩ := st1
    have hs1 : accumShape o1 (decide (defaultServerOf env ≠ "")) :=
      (mergeStep_shape_preserved _ _ _ _ _ _ (initOut_shape _) hm1).1
    obtain ⟨o2, s2⟩ := st2
    exact mergeStep_paths_leaf _ o1 s1 spec2 o2 s2 pa π va hs1 hm2 hpa hnda hva hlva

/-- Witness for C7 at the spec's own example: A defines
`paths./x.get = {a: 1, c: 3}`, B defines `paths./x.get = {a: 2, b: 9}`;
merging [A, B] leaves `a = 2` and merging [B, A] leaves `a = 1`. -/
theorem merge_specs_order_sensitivity_witness :
    merge_specs (fun p => if p = "A"
        then Except.ok (YVal.map [("paths", .map [("/x",
          .map [("get", .map [("a", .int 1), ("c", .int 3)])])])])
        else Except.ok (YVal.map [("paths", .map [("/x",
          .map [("get", .map [("a", .int 2), ("b", .int 9)])])])]))
      none ["A", "B"] = .ok
      [("openapi", .str "3.0.3"),
       ("info", .map [("title", .str "FocusNest - All Services"),
                      ("version", .str "1.0.0")]),
       ("paths", .map [("/x", .map [("get",
          .map [("a", .int 2), ("c", .int 3), ("b", .int 9)])])]),
       ("components", .map [("schemas", .map []), ("securitySchemes", .map []),
                            ("parameters", .map []), ("responses", .map [])]),
       ("tags", .seq [])] ∧
    (∃ pm, lookup
        [("openapi", .str "3.0.3"),
         ("info", .map [("title", .str "FocusNest - All Services"),
                        ("version", .str "1.0.0")]),
         ("paths", .map [("/x", .map [("get",
            .map [("a", .int 2), ("c", .int 3), ("b", .int 9)])])]),
         ("components", .map [("schemas", .map []), ("securitySchemes", .map []),
                              ("parameters", .map []), ("responses", .map [])]),
         ("tags", .seq [])] "paths" = some (.map pm) ∧
      lookupPath (.map pm) ["/x", "get", "a"] = some (.int 2)) ∧
    merge_specs (fun p => if p = "A"
        then Except.ok (YVal.map [("paths", .map [("/x",
          .map [("get", .map [("a", .int 1), ("c", .int 3)])])])])
        else Except.ok (YVal.map [("paths", .map [("/x",
          .map [("get", .map [("a", .int 2), ("b", .int 9)])])])]))
      none ["B", "A"] = .ok
      [("openapi", .str "3.0.3"),
       ("info", .map [("title", .str "FocusNest - All Services"),
                      ("version", .str "1.0.0")]),
       ("paths", .map [("/x", .map [("get",
          .map [("a", .int 1), ("b", .int 9), ("c", .int 3)])])]),
       ("components", .map [("schemas", .map []), ("securitySchemes", .map []),
                            ("parameters", .map []), ("responses", .map [])]),
       ("tags", .seq [])] ∧
    (∃ pm, lookup
        [("openapi", .str "3.0.3"),
         ("info", .map [("title", .str "FocusNest - All Services"),
                        ("version", .str "1.0.0")]),
         ("paths", .map [("/x", .map [("get",
            .map [("a", .int 1), ("b", .int 9), ("c", .int 3)])])]),
         ("components", .map [("schemas", .map []), ("securitySchemes", .map []),
                              ("parameters", .map []), ("responses", .map [])]),
         ("tags", .seq [])] "paths" = some (.map pm) ∧
      lookupPath (.map pm) ["/x", "get", "a"] = some (.int 1)) := by
  have hAB : merge_specs (fun p => if p = "A"
        then Except.ok (YVal.map [("paths", .map [("/x",
          .map [("get", .map [("a", .int 1), ("c", .int 3)])])])])
        else Except.ok (YVal.map [("paths", .map [("/x",
          .map [("get", .map [("a", .int 2), ("b", .int 9)])])])]))
      none ["A", "B"] = .ok
      [("openapi", .str "3.0.3"),
       ("info", .map [("title", .str "FocusNest - All Services"),
                      ("version", .str "1.0.0")]),
       ("paths", .map [("/x", .map [("get",
          .map [("a", .int 2), ("c", .int 3), ("b", .int 9)])])]),
       ("components", .map [("schemas", .map []), ("securitySchemes", .map []),
                            ("parameters", .map []), ("responses", .map [])]),
       ("tags", .seq [])] := by
    simp [merge_specs, defaultServerOf, pyStrip, loadStep, mergeStep,
      mergeCompKey, getComps, getTags, srcItems, pyGet, pyOrEmptyDict,
      pyOrEmptyList, truthy, initOut, setKey, lookup, deep_merge_dict,
      tagStep, List.foldlM, Bind.bind, Except.bind, pure, Except.pure]
  have hBA : merge_specs (fun p => if p = "A"
        then Except.ok (YVal.map [("paths", .map [("/x",
          .map [("get", .map [("a", .int 1), ("c", .int 3)])])])])
        else Except.ok (YVal.map [("paths", .map [("/x",
          .map [("get", .map [("a", .int 2), ("b", .int 9)])])])]))
      none ["B", "A"] = .ok
      [("openapi", .str "3.0.3"),
       ("info", .map [("title", .str "FocusNest - All Services"),
                      ("version", .str "1.0.0")]),
       ("paths", .map [("/x", .map [("get",
          .map [("a", .int 1), ("b", .int 9), ("c", .int 3)])])]),
       ("components", .map [("schemas", .map []), ("securitySchemes", .map []),
                            ("parameters", .map []), ("responses", .map [])]),
       ("tags", .seq [])] := by
    simp [merge_specs, defaultServerOf, pyStrip, loadStep, mergeStep,
      mergeCompKey, getComps, getTags, srcItems, pyGet, pyOrEmptyDict,
      pyOrEmptyList, truthy, initOut, setKey, lookup, deep_merge_dict,
      tagStep, List.foldlM, Bind.bind, Except.bind, pure, Except.pure]
  have H := merge_specs_order_sensitivity (fun p => if p = "A"
        then Except.ok (YVal.map [("paths", .map [("/x",
          .map [("get", .map [("a", .int 1), ("c", .int 3)])])])])
        else Except.ok (YVal.map [("paths", .map [("/x",
          .map [("get", .map [("a", .int 2), ("b", .int 9)])])])]))
      none "A" "B"
      [("paths", .map [("/x", .map [("get",
        .map [("a", .int 1), ("c", .int 3)])])])]
      [("paths", .map [("/x", .map [("get",
        .map [("a", .int 2), ("b", .int 9)])])])]
      rfl rfl
      [("/x", .map [("get", .map [("a", .int 1), ("c", .int 3)])])]
      [("/x", .map [("get", .map [("a", .int 2), ("b", .int 9)])])]
      rfl rfl ["/x", "get", "a"] (.int 1) (.int 2)
      rfl (by decide) rfl (by decide) rfl rfl
  exact ⟨hAB, H.1 _ hAB, hBA, H.2 _ hBA⟩

/-! ### C2: tag deduplication -/

/-- The name of a tag entry, when the entry is a mapping with a string
name. -/
def tagName : YVal → Option String
  | .map td =>
      (match lookup td "name" with
       | some (.str s) => some s
       | _ => none)
  | _ => none

/-- A well-formed tag entry: a mapping whose `name` is a non-empty string —
the shape OpenAPI prescribes, and (because of the script's truthiness test)
the only shape that can ever be appended to the output. -/
def tagEntryNamed (t : YVal) : Prop :=
  ∃ td s, t = .map td ∧ lookup td "name" = some (.str s) ∧ s ≠ ""

/-- The tag entries the script iterates for a document: the sequence value
of `spec.get('tags', []) or []`, empty when absent or falsy. -/
def codeTags (d : Ydict) : List YVal :=
  match getTags d with
  | .ok l => l
  | .error _ => []

/-- Modelled from the spec's tag rule ("if the name is present and not
already in the Seen-Tags Set, append the full tag entry ... and add the
name to the set; otherwise skip it silently"): scan the entries in order,
returning the final seen-name list and the kept entries. -/
def specTagScan : List String → List YVal → List String × List YVal
  | seen, [] => (seen, [])
  | seen, t :: ts =>
      match tagName t with
      | some s =>
          if s ∈ seen then specTagScan seen ts
          else
            ((specTagScan (seen ++ [s]) ts).1,
              t :: (specTagScan (seen ++ [s]) ts).2)
      | none => specTagScan seen ts

theorem specTagScan_append (seen : List String) (l1 l2 : List YVal) :
    specTagScan seen (l1 ++ l2) =
      ((specTagScan (specTagScan seen l1).1 l2).1,
       (specTagScan seen l1).2 ++ (specTagScan (specTagScan seen l1).1 l2).2) := by
  induction l1 generalizing seen with
  | nil => simp [specTagScan]
  | cons t ts ih =>
    cases ht : tagName t with
    | none => simp [specTagScan, ht, ih]
    | some s =>
      by_cases hm : s ∈ seen
      · simp [specTagScan, ht, hm, ih]
      · simp [specTagScan, ht, hm, ih]

theorem specTagScan_names (seen : List String) (l : List YVal) :
    (specTagScan seen l).1 = seen ++ (specTagScan seen l).2.filterMap tagName ∧
    ((specTagScan seen l).2.filterMap tagName).Nodup ∧
    (∀ s ∈ (specTagScan seen l).2.filterMap tagName, s ∉ seen) := by
  induction l generalizing seen with
  | nil => simp [specTagScan]
  | cons t ts ih =>
    cases ht : tagName t with
    | none =>
      simp only [specTagScan, ht]
      exact ih seen
    | some s =>
      by_cases hm : s ∈ seen
      · simp only [specTagScan, ht, if_pos hm]
        exact ih seen
      · simp only [specTagScan, ht, if_neg hm]
        obtain ⟨h1, h2, h3⟩ := ih (seen ++ [s])
        refine ⟨?_, ?_, ?_⟩
        · simp only [List.filterMap_cons, ht]
          rw [h1]
          simp
        · simp only [List.filterMap_cons, ht]
          rw [List.nodup_cons]
          refine ⟨fun hsm => (h3 s hsm) (by simp), h2⟩
        · simp only [List.filterMap_cons, ht]
          intro x hx
          rcases List.mem_cons.mp hx with rfl | hx'
          · exact hm
          · intro hxs
            exact (h3 x hx') (by simp [hxs])

theorem any_scalarBeq_str (sn : List String) (s : String) :
    (sn.map YVal.str).any (scalarBeq (.str s)) = decide (s ∈ sn) := by
  induction sn with
  | nil => rfl
  | cons a l ih =>
    simp only [List.map_cons, List.any_cons, ih, scalarBeq, List.mem_cons]
    by_cases h : s = a
    · simp [h]
    · simp [h, beq_iff_eq]

/-- The script's tag fold, on a state whose seen set is a list of string
names, agrees with the spec's scan, appending kept entries to the
accumulated tags. -/
theorem tagFold_eq_scan (l : List YVal) (sn : List String) (acc : List YVal)
    (hWF : ∀ t ∈ l, tagEntryNamed t) :
    l.foldlM tagStep (sn.map YVal.str, acc) = .ok
      ((specTagScan sn l).1.map YVal.str,
       acc ++ (specTagScan sn l).2) := by
  induction l generalizing sn acc with
  | nil => simp [List.foldlM, specTagScan, pure, Except.pure]
  | cons t ts ih =>
    obtain ⟨td, s, rfl, hname, hs⟩ := hWF t (by simp)
    have htn : tagName (.map td) = some s := by simp [tagName, hname]
    have hstep : tagStep (sn.map YVal.str, acc) (.map td) =
        if s ∈ sn then .ok (sn.map YVal.str, acc)
        else .ok (sn.map YVal.str ++ [.str s], acc ++ [.map td]) := by
      simp only [tagStep, hname]
      rw [if_pos (show truthy (.str s) = true by simp [truthy, hs])]
      rw [any_scalarBeq_str]
      by_cases hm : s ∈ sn
      · rw [if_pos (by simp [hm]), if_pos hm]
      · rw [if_neg (by simp [hm]), if_neg hm]
    simp only [List.foldlM, Bind.bind, Except.bind, hstep]
    by_cases hm : s ∈ sn
    · rw [if_pos hm]
      simp only [specTagScan, htn, if_pos hm]
      exact ih sn acc (fun x hx => hWF x (by simp [hx]))
    · rw [if_neg hm]
      have hmap : sn.map YVal.str ++ [YVal.str s] = (sn ++ [s]).map YVal.str := by
        simp
      have ihh := ih (sn ++ [s]) (acc ++ [.map td])
        (fun x hx => hWF x (by simp [hx]))
      simp only [specTagScan, htn, if_neg hm]
      rw [hmap, ihh]
      simp

/-- One merge step appends to the accumulator's tag sequence exactly the
spec-scan of the document's tag entries against the current seen set, and
updates the seen set to the scan's final name list. -/
theorem mergeStep_tags (b : Bool) (out : Ydict) (seen : List YVal)
    (spec : Ydict) (out' : Ydict) (seen' : List YVal)
    (hs : accumShape out b)
    (h : mergeStep out seen spec = .ok (out', seen'))
    (sn : List String) (ts0 : List YVal)
    (hseen : seen = sn.map YVal.str)
    (hts : lookup out "tags" = some (.seq ts0))
    (hWF : ∀ t ∈ codeTags spec, tagEntryNamed t) :
    lookup out' "tags" =
      some (.seq (ts0 ++ (specTagScan sn (codeTags spec)).2)) ∧
    seen' = (specTagScan sn (codeTags spec)).1.map YVal.str := by
  obtain ⟨hkeys, ⟨pd, hp⟩, ⟨oc, hc, hck, hcsub⟩, ⟨acc, ht⟩⟩ := hs
  have hacc : acc = ts0 := by
    rw [hts] at ht
    exact (YVal.seq.inj (Option.some.inj ht)).symm
  subst hacc
  rw [mergeStep_eq_of_shape out seen spec pd oc acc hp hc ht] at h
  obtain ⟨src, comps, oc1, oc2, oc3, oc4, tags, st, hsrc, hcomps,
    h1, h2, h3, h4, htags, hst, hres⟩ := mergeStepShaped_ok_elim h
  have htg : codeTags spec = tags := by simp [codeTags, htags]
  subst hseen
  rw [tagFold_eq_scan tags sn acc (htg ▸ hWF)] at hst
  have hst' := Except.ok.inj hst
  subst hst'
  rw [Prod.mk.injEq] at hres
  obtain ⟨ho, hs'⟩ := hres
  subst ho
  rw [htg]
  exact ⟨by rw [lookup_setKey, if_pos rfl], hs'⟩

theorem initOut_tags (ds : String) :
    lookup (initOut ds) "tags" = some (.seq []) := by
  by_cases h : ds = ""
  · subst h; rfl
  · simp only [initOut]
    rw [if_pos h]
    simp [setKey, lookup]

/-- Across a whole merge run, the accumulated tag sequence is the spec-scan
of the concatenation of all documents' tag entries in input order. -/
theorem mergeFold_tags (load : String → Except String YVal) (b : Bool)
    (paths : List String) (docs : List Ydict)
    (hdocs : paths.map load = docs.map (fun d => Except.ok (YVal.map d)))
    (st st' : Ydict × List YVal)
    (h : paths.foldlM (loadStep load) st = .ok st')
    (hs : accumShape st.1 b)
    (sn : List String) (ts0 : List YVal)
    (hseen : st.2 = sn.map YVal.str)
    (hts : lookup st.1 "tags" = some (.seq ts0))
    (hWF : ∀ d ∈ docs, ∀ t ∈ codeTags d, tagEntryNamed t) :
    lookup st'.1 "tags" =
      some (.seq (ts0 ++ (specTagScan sn (docs.flatMap codeTags)).2)) ∧
    st'.2 = (specTagScan sn (docs.flatMap codeTags)).1.map YVal.str := by
  induction paths generalizing docs st sn ts0 with
  | nil =>
    cases docs with
    | cons d ds => simp at hdocs
    | nil =>
      simp only [List.foldlM, pure, Except.pure, Except.ok.injEq] at h
      subst h
      simp only [List.flatMap_nil, specTagScan, List.append_nil]
      exact ⟨hts, hseen⟩
  | cons p ps ih =>
    cases docs with
    | nil => simp at hdocs
    | cons d ds =>
      simp only [List.map_cons, List.cons.injEq] at hdocs
      obtain ⟨hload, hrest⟩ := hdocs
      simp only [List.foldlM, Bind.bind, Except.bind] at h
      split at h
      · exact absurd h (by simp)
      rename_i st1 hl1
      obtain ⟨spec, hlp, hm⟩ := loadStep_ok_elim hl1
      rw [hload] at hlp
      have hspec : spec = d := YVal.map.inj (Except.ok.inj hlp.symm)
      subst hspec
      obtain ⟨o1, s1⟩ := st1
      have hsh1 := mergeStep_shape_preserved b st.1 st.2 spec o1 s1 hs hm
      have htag1 := mergeStep_tags b st.1 st.2 spec o1 s1 hs hm sn ts0
        hseen hts (hWF spec (by simp))
      have ihh := ih ds hrest (o1, s1) h hsh1.1
        (specTagScan sn (codeTags spec)).1
        (ts0 ++ (specTagScan sn (codeTags spec)).2)
        htag1.2 htag1.1
        (fun d' hd' => hWF d' (by simp [hd']))
      rw [List.flatMap_cons, specTagScan_append]
      refine ⟨?_, ?_⟩
      · rw [ihh.1]
        simp [List.append_assoc]
      · rw [ihh.2]

/-- C2.  When every tag entry across the input documents is a mapping with
a non-empty string name (the shape the script's truthiness test lets
through), the merged tags sequence is exactly the spec's first-wins scan of
the concatenated tag entries in input order: the first entry seen for each
name is kept in full, every later entry with an already-seen name is
silently dropped, and no two entries of the output share a name. -/
theorem merge_specs_tags (load : String → Except String YVal)
    (env : Option String) (paths : List String) (docs : List Ydict)
    (out : Ydict)
    (hdocs : paths.map load = docs.map (fun d => Except.ok (YVal.map d)))
    (hWF : ∀ d ∈ docs, ∀ t ∈ codeTags d, tagEntryNamed t)
    (h : merge_specs load env paths = .ok out) :
    lookup out "tags" =
      some (.seq (specTagScan [] (docs.flatMap codeTags)).2) ∧
    ((specTagScan [] (docs.flatMap codeTags)).2.filterMap tagName).Nodup := by
  obtain ⟨st', hf, rfl⟩ := merge_specs_ok_elim h
  have hft := mergeFold_tags load _ paths docs hdocs
    (initOut (defaultServerOf env), []) st' hf (initOut_shape _)
    [] [] rfl (initOut_tags _) hWF
  exact ⟨by simpa using hft.1, (specTagScan_names [] _).2.1⟩

/-- Witness for C2 at the spec's §8 example: inputs with tags
`[{name: a}, {name: b}]` and `[{name: a, description: X}]` merge to tags
`[{name: a}, {name: b}]` — the later duplicate is dropped whole. -/
theorem merge_specs_tags_witness :
    merge_specs (fun p => if p = "1"
        then Except.ok (YVal.map [("tags", .seq [.map [("name", .str "a")],
          .map [("name", .str "b")]])])
        else Except.ok (YVal.map [("tags", .seq [.map [("name", .str "a"),
          ("description", .str "X")]])]))
      none ["1", "2"] = .ok
      [("openapi", .str "3.0.3"),
       ("info", .map [("title", .str "FocusNest - All Services"),
                      ("version", .str "1.0.0")]),
       ("paths", .map []),
       ("components", .map [("schemas", .map []), ("securitySchemes", .map []),
                            ("parameters", .map []), ("responses", .map [])]),
       ("tags", .seq [.map [("name", .str "a")], .map [("name", .str "b")]])] ∧
    lookup
      [("openapi", .str "3.0.3"),
       ("info", .map [("title", .str "FocusNest - All Services"),
                      ("version", .str "1.0.0")]),
       ("paths", .map []),
       ("components", .map [("schemas", .map []), ("securitySchemes", .map []),
                            ("parameters", .map []), ("responses", .map [])]),
       ("tags", .seq [.map [("name", .str "a")], .map [("name", .str "b")]])]
      "tags" = some (.seq [.map [("name", .str "a")],
        .map [("name", .str "b")]]) := by
  have heval : merge_specs (fun p => if p = "1"
        then Except.ok (YVal.map [("tags", .seq [.map [("name", .str "a")],
          .map [("name", .str "b")]])])
        else Except.ok (YVal.map [("tags", .seq [.map [("name", .str "a"),
          ("description", .str "X")]])]))
      none ["1", "2"] = .ok
      [("openapi", .str "3.0.3"),
       ("info", .map [("title", .str "FocusNest - All Services"),
                      ("version", .str "1.0.0")]),
       ("paths", .map []),
       ("components", .map [("schemas", .map []), ("securitySchemes", .map []),
                            ("parameters", .map []), ("responses", .map [])]),
       ("tags", .seq [.map [("name", .str "a")],
         .map [("name", .str "b")]])] := by
    simp [merge_specs, defaultServerOf, pyStrip, loadStep, mergeStep,
      mergeCompKey, getComps, getTags, srcItems, pyGet, pyOrEmptyDict,
      pyOrEmptyList, truthy, initOut, setKey, lookup, deep_merge_dict,
      tagStep, scalarBeq, List.foldlM, Bind.bind, Except.bind, pure,
      Except.pure]
  have hW : ∀ d ∈ ([[("tags", YVal.seq [.map [("name", .str "a")],
        .map [("name", .str "b")]])],
      [("tags", YVal.seq [.map [("name", .str "a"),
        ("description", .str "X")]])]] : List Ydict),
      ∀ t ∈ codeTags d, tagEntryNamed t := by
    intro d hd t ht
    simp only [List.mem_cons, List.not_mem_nil, or_false] at hd
    rcases hd with rfl | rfl
    · rw [show codeTags [("tags", YVal.seq [.map [("name", .str "a")],
        .map [("name", .str "b")]])] = [.map [("name", .str "a")],
        .map [("name", .str "b")]] from rfl] at ht
      simp only [List.mem_cons, List.not_mem_nil, or_false] at ht
      rcases ht with rfl | rfl
      · exact ⟨_, "a", rfl, rfl, by decide⟩
      · exact ⟨_, "b", rfl, rfl, by decide⟩
    · rw [show codeTags [("tags", YVal.seq [.map [("name", .str "a"),
        ("description", .str "X")]])] = [.map [("name", .str "a"),
        ("description", .str "X")]] from rfl] at ht
      simp only [List.mem_cons, List.not_mem_nil, or_false] at ht
      rcases ht with rfl
      exact ⟨_, "a", rfl, rfl, by decide⟩
  have H := merge_specs_tags (fun p => if p = "1"
        then Except.ok (YVal.map [("tags", .seq [.map [("name", .str "a")],
          .map [("name", .str "b")]])])
        else Except.ok (YVal.map [("tags", .seq [.map [("name", .str "a"),
          ("description", .str "X")]])]))
      none ["1", "2"]
      [[("tags", YVal.seq [.map [("name", .str "a")],
          .map [("name", .str "b")]])],
       [("tags", YVal.seq [.map [("name", .str "a"),
          ("description", .str "X")]])]] _ rfl hW heval
  exact ⟨heval, H.1⟩

/-! ### C6: idempotence of repeating a single input -/

/-- Well-formedness of a parsed value: every mapping anywhere inside has
duplicate-free keys.  Automatic for anything `yaml.safe_load` produces,
since Python dicts cannot hold duplicate keys. -/
def WFv : YVal → Prop
  | .null => True
  | .bool _ => True
  | .int _ => True
  | .str _ => True
  | .seq l => ∀ x ∈ l.attach, WFv x.1
  | .map d => (keys d).Nodup ∧ ∀ p ∈ d.attach, WFv p.1.2
termination_by v => sizeOf v
decreasing_by
  · have h1 := List.sizeOf_lt_of_mem x.2
    simp only [YVal.seq.sizeOf_spec]
    omega
  · have h1 := List.sizeOf_lt_of_mem p.2
    obtain ⟨⟨k, v⟩, hmem⟩ := p
    simp only [YVal.map.sizeOf_spec]
    simp only [Prod.mk.sizeOf_spec] at h1
    omega

theorem WFv_map (d : Ydict) :
    WFv (.map d) ↔ (keys d).Nodup ∧ ∀ p ∈ d, WFv p.2 := by
  rw [WFv]
  constructor
  · rintro ⟨h1, h2⟩
    exact ⟨h1, fun p hp => h2 ⟨p, hp⟩ (List.mem_attach _ _)⟩
  · rintro ⟨h1, h2⟩
    exact ⟨h1, fun x _ => h2 x.1 x.2⟩

theorem WFv_seq (l : List YVal) :
    WFv (.seq l) ↔ ∀ x ∈ l, WFv x := by
  rw [WFv]
  constructor
  · intro h x hx
    exact h ⟨x, hx⟩ (List.mem_attach _ _)
  · intro h x _
    exact h x.1 x.2

theorem WFv_lookup (d : Ydict) (k : String) (v : YVal)
    (hWF : WFv (.map d)) (h : lookup d k = some v) : WFv v :=
  ((WFv_map d).mp hWF).2 (k, v) (lookup_mem d k v h)

theorem sizeOf_lookup_map (d : Ydict) (k : String) (s0 : Ydict)
    (h : lookup d k = some (.map s0)) : sizeOf s0 < sizeOf d := by
  have h1 := List.sizeOf_lt_of_mem (lookup_mem d k _ h)
  simp only [Prod.mk.sizeOf_spec, YVal.map.sizeOf_spec] at h1
  omega

/-- Two dicts with the same key list (duplicate-free) and the same lookups
are equal. -/
theorem dict_ext (d1 : Ydict) : ∀ (d2 : Ydict), keys d1 = keys d2 →
    (keys d1).Nodup → (∀ k, lookup d1 k = lookup d2 k) → d1 = d2 := by
  induction d1 with
  | nil =>
    intro d2 hk _ _
    cases d2 with
    | nil => rfl
    | cons q r2 => simp [keys] at hk
  | cons p r ih =>
    intro d2 hk hnd hl
    obtain ⟨k0, v0⟩ := p
    cases d2 with
    | nil => simp [keys] at hk
    | cons q r2 =>
      obtain ⟨k1, v1⟩ := q
      simp only [keys, List.map_cons, List.cons.injEq] at hk
      obtain ⟨hk0, hkr⟩ := hk
      subst hk0
      have hv : v0 = v1 := by
        have h0 := hl k0
        rw [lookup, if_pos rfl, lookup, if_pos rfl] at h0
        exact Option.some.inj h0
      subst hv
      simp only [keys, List.map_cons, List.nodup_cons] at hnd
      have hr : r = r2 := by
        apply ih r2 hkr hnd.2
        intro k
        by_cases hkk : k = k0
        · subst hkk
          rw [lookup_eq_none_of_not_mem r k (by simpa [keys] using hnd.1),
            lookup_eq_none_of_not_mem r2 k
              (by rw [keys, ← hkr]; simpa [keys] using hnd.1)]
        · have h0 := hl k
          rw [lookup, if_neg (fun hh => hkk hh.symm),
            lookup, if_neg (fun hh => hkk hh.symm)] at h0
          exact h0
      rw [hr]

/-- The merge of one source binding is a `setKey`, whatever the value is. -/
theorem deep_merge_dict_cons (dst : Ydict) (k : String) (v : YVal)
    (rest : Ydict) :
    ∃ w, deep_merge_dict dst ((k, v) :: rest) =
      deep_merge_dict (setKey dst k w) rest := by
  cases v with
  | map s0 =>
    cases hdk : lookup dst k with
    | some u =>
      cases u with
      | map d0 =>
        exact ⟨.map (deep_merge_dict d0 s0), by simp only [deep_merge_dict, hdk]⟩
      | null => exact ⟨.map s0, by simp only [deep_merge_dict, hdk]⟩
      | bool b => exact ⟨.map s0, by simp only [deep_merge_dict, hdk]⟩
      | int n => exact ⟨.map s0, by simp only [deep_merge_dict, hdk]⟩
      | str s => exact ⟨.map s0, by simp only [deep_merge_dict, hdk]⟩
      | seq l => exact ⟨.map s0, by simp only [deep_merge_dict, hdk]⟩
    | none => exact ⟨.map s0, by simp only [deep_merge_dict, hdk]⟩
  | null => exact ⟨.null, by simp only [deep_merge_dict]⟩
  | bool b => exact ⟨.bool b, by simp only [deep_merge_dict]⟩
  | int n => exact ⟨.int n, by simp only [deep_merge_dict]⟩
  | str s => exact ⟨.str s, by simp only [deep_merge_dict]⟩
  | seq l => exact ⟨.seq l, by simp only [deep_merge_dict]⟩

theorem keys_deep_merge_dict (src : Ydict) : ∀ (dst : Ydict),
    (keys src).Nodup →
    keys (deep_merge_dict dst src) =
      keys dst ++ (keys src).filter (fun k => k ∉ keys dst) := by
  induction src with
  | nil => intro dst _; simp [deep_merge_dict, keys]
  | cons p rest ih =>
    intro dst hnd
    obtain ⟨k, v⟩ := p
    rw [show keys ((k, v) :: rest) = k :: keys rest from rfl,
      List.nodup_cons] at hnd
    obtain ⟨hk, hnd'⟩ := hnd
    obtain ⟨w, hw⟩ := deep_merge_dict_cons dst k v rest
    rw [hw, ih _ hnd', keys_setKey,
      show keys ((k, v) :: rest) = k :: keys rest from rfl, List.filter_cons]
    by_cases hm : k ∈ keys dst
    · rw [if_pos hm, if_neg (by simp [hm])]
    · rw [if_neg hm, if_pos (by simp [hm])]
      have hcong : (keys rest).filter (fun x => decide (x ∉ keys dst ++ [k]))
          = (keys rest).filter (fun x => decide (x ∉ keys dst)) := by
        apply List.filter_congr
        intro x hx
        have hxk : x ≠ k := fun he => hk (he ▸ hx)
        simp [decide_eq_decide, List.mem_append, hxk]
      rw [hcong, List.append_assoc]
      rfl

theorem nodup_keys_deep_merge_dict (dst src : Ydict)
    (h1 : (keys dst).Nodup) (h2 : (keys src).Nodup) :
    (keys (deep_merge_dict dst src)).Nodup := by
  rw [keys_deep_merge_dict src dst h2]
  refine List.Nodup.append h1 (h2.filter _) ?_
  intro a ha hfa
  have := List.of_mem_filter hfa
  simp at this
  exact this ha

theorem mem_keys_deep_merge_dict (dst src : Ydict) (hnd : (keys src).Nodup)
    (k : String) (hm : k ∈ keys src) : k ∈ keys (deep_merge_dict dst src) := by
  rw [keys_deep_merge_dict src dst hnd]
  by_cases hd : k ∈ keys dst
  · exact List.mem_append_left _ hd
  · exact List.mem_append_right _ (List.mem_filter.mpr ⟨hm, by simp [hd]⟩)

/-- Self-merge is the identity and re-merging the same source is absorbed,
for well-formed dicts (simultaneous strong induction on the source size). -/
theorem dmd_idem_aux : ∀ (n : Nat), ∀ (s : Ydict), sizeOf s ≤ n →
    WFv (.map s) →
    (deep_merge_dict s s = s ∧
     ∀ d : Ydict, WFv (.map d) →
       deep_merge_dict (deep_merge_dict d s) s = deep_merge_dict d s) := by
  intro n
  induction n with
  | zero =>
    intro s hsz _
    exfalso
    have h0 : 0 < sizeOf s := by cases s <;> simp
    omega
  | succ n ihn =>
    intro s hsz hWFs
    have hnds : (keys s).Nodup := ((WFv_map s).mp hWFs).1
    constructor
    · apply dict_ext
      · rw [keys_deep_merge_dict s s hnds,
          List.filter_eq_nil_iff.mpr (by intro a ha; simp [ha]),
          List.append_nil]
      · exact nodup_keys_deep_merge_dict s s hnds hnds
      · intro k
        rw [deep_merge_dict_pointwise s s hnds k]
        cases hls : lookup s k with
        | none => simp [hls]
        | some v =>
          cases v with
          | map s0 =>
            have hWFs0 : WFv (.map s0) := WFv_lookup s k _ hWFs hls
            have hsz0 : sizeOf s0 ≤ n := by
              have := sizeOf_lookup_map s k s0 hls
              omega
            have hself := (ihn s0 hsz0 hWFs0).1
            simp [hls, hself]
          | null => simp [hls]
          | bool b => simp [hls]
          | int m => simp [hls]
          | str t => simp [hls]
          | seq l => simp [hls]
    · intro d hWFd
      have hndd := ((WFv_map d).mp hWFd).1
      apply dict_ext
      · rw [keys_deep_merge_dict s (deep_merge_dict d s) hnds,
          List.filter_eq_nil_iff.mpr (by
            intro a ha
            simp only [decide_eq_true_eq, not_not, Decidable.not_not]
            exact mem_keys_deep_merge_dict d s hnds a ha),
          List.append_nil]
      · exact nodup_keys_deep_merge_dict _ s
          (nodup_keys_deep_merge_dict d s hndd hnds) hnds
      · intro k
        rw [deep_merge_dict_pointwise (deep_merge_dict d s) s hnds k]
        have hpt := deep_merge_dict_pointwise d s hnds k
        cases hls : lookup s k with
        | none => simp [hls]
        | some v =>
          rw [hls] at hpt
          cases v with
          | map s0 =>
            have hWFs0 : WFv (.map s0) := WFv_lookup s k _ hWFs hls
            have hsz0 : sizeOf s0 ≤ n := by
              have := sizeOf_lookup_map s k s0 hls
              omega
            cases hld : lookup d k with
            | some u =>
              cases u with
              | map d0 =>
                rw [hld] at hpt
                have hWFd0 : WFv (.map d0) := WFv_lookup d k _ hWFd hld
                have habs := (ihn s0 hsz0 hWFs0).2 d0 hWFd0
                simp [hls, hpt, habs]
              | null =>
                rw [hld] at hpt
                have hself := (ihn s0 hsz0 hWFs0).1
                simp [hls, hpt, hself]
              | bool b =>
                rw [hld] at hpt
                have hself := (ihn s0 hsz0 hWFs0).1
                simp [hls, hpt, hself]
              | int m =>
                rw [hld] at hpt
                have hself := (ihn s0 hsz0 hWFs0).1
                simp [hls, hpt, hself]
              | str t =>
                rw [hld] at hpt
                have hself := (ihn s0 hsz0 hWFs0).1
                simp [hls, hpt, hself]
              | seq l =>
                rw [hld] at hpt
                have hself := (ihn s0 hsz0 hWFs0).1
                simp [hls, hpt, hself]
            | none =>
              rw [hld] at hpt
              have hself := (ihn s0 hsz0 hWFs0).1
              simp [hls, hpt, hself]
          | null => simp [hpt]
          | bool b => simp [hpt]
          | int m => simp [hpt]
          | str t => simp [hpt]
          | seq l => simp [hpt]

theorem deep_merge_dict_self (s : Ydict) (h : WFv (.map s)) :
    deep_merge_dict s s = s :=
  (dmd_idem_aux (sizeOf s) s le_rfl h).1

theorem deep_merge_dict_absorb (d s : Ydict) (hd : WFv (.map d))
    (hs : WFv (.map s)) :
    deep_merge_dict (deep_merge_dict d s) s = deep_merge_dict d s :=
  (dmd_idem_aux (sizeOf s) s le_rfl hs).2 d hd

theorem tagStep_ok_mono (st st1 : List YVal × List YVal) (t : YVal)
    (h : tagStep st t = .ok st1) :
    ∃ ext, st1.1 = st.1 ++ ext := by
  cases t with
  | map td =>
    simp only [tagStep] at h
    cases hn : lookup td "name" with
    | none =>
      simp only [hn] at h
      exact ⟨[], by simp [← Except.ok.inj h]⟩
    | some name =>
      simp only [hn] at h
      by_cases ht : truthy name = true
      · rw [if_pos ht] at h
        cases name with
        | seq l => exact absurd h (by simp)
        | map m => exact absurd h (by simp)
        | null => simp [truthy] at ht
        | bool b =>
          by_cases hm : st.1.any (scalarBeq (.bool b)) = true
          · rw [if_pos hm] at h
            exact ⟨[], by simp [← Except.ok.inj h]⟩
          · rw [if_neg hm] at h
            exact ⟨[.bool b], by rw [← Except.ok.inj h]⟩
        | int m =>
          by_cases hm : st.1.any (scalarBeq (.int m)) = true
          · rw [if_pos hm] at h
            exact ⟨[], by simp [← Except.ok.inj h]⟩
          · rw [if_neg hm] at h
            exact ⟨[.int m], by rw [← Except.ok.inj h]⟩
        | str sN =>
          by_cases hm : st.1.any (scalarBeq (.str sN)) = true
          · rw [if_pos hm] at h
            exact ⟨[], by simp [← Except.ok.inj h]⟩
          · rw [if_neg hm] at h
            exact ⟨[.str sN], by rw [← Except.ok.inj h]⟩
      · rw [if_neg ht] at h
        exact ⟨[], by simp [← Except.ok.inj h]⟩
  | null => exact absurd h (by simp [tagStep])
  | bool b => exact absurd h (by simp [tagStep])
  | int n => exact absurd h (by simp [tagStep])
  | str s => exact absurd h (by simp [tagStep])
  | seq l => exact absurd h (by simp [tagStep])

theorem tagStep_replay (st st1 big : List YVal × List YVal) (t : YVal)
    (h : tagStep st t = .ok st1)
    (ext : List YVal) (hext : big.1 = st1.1 ++ ext) :
    tagStep big t = .ok big := by
  cases t with
  | map td =>
    simp only [tagStep] at h
    cases hn : lookup td "name" with
    | none => simp [tagStep, hn]
    | some name =>
      simp only [hn] at h
      by_cases ht : truthy name = true
      · rw [if_pos ht] at h
        cases name with
        | seq l => exact absurd h (by simp)
        | map m => exact absurd h (by simp)
        | null => simp [truthy] at ht
        | bool b =>
          have hbig : big.1.any (scalarBeq (.bool b)) = true := by
            by_cases hm : st.1.any (scalarBeq (.bool b)) = true
            · rw [if_pos hm] at h
              rw [hext, ← Except.ok.inj h]
              simp [List.any_append, hm]
            · rw [if_neg hm] at h
              rw [hext, ← Except.ok.inj h]
              simp [List.any_append, scalarBeq]
          simp [tagStep, hn, ht, hbig]
        | int m =>
          have hbig : big.1.any (scalarBeq (.int m)) = true := by
            by_cases hm : st.1.any (scalarBeq (.int m)) = true
            · rw [if_pos hm] at h
              rw [hext, ← Except.ok.inj h]
              simp [List.any_append, hm]
            · rw [if_neg hm] at h
              rw [hext, ← Except.ok.inj h]
              simp [List.any_append, scalarBeq]
          simp [tagStep, hn, ht, hbig]
        | str sN =>
          have hbig : big.1.any (scalarBeq (.str sN)) = true := by
            by_cases hm : st.1.any (scalarBeq (.str sN)) = true
            · rw [if_pos hm] at h
              rw [hext, ← Except.ok.inj h]
              simp [List.any_append, hm]
            · rw [if_neg hm] at h
              rw [hext, ← Except.ok.inj h]
              simp [List.any_append, scalarBeq]
          simp [tagStep, hn, ht, hbig]
      · simp [tagStep, hn, ht]
  | null => exact absurd h (by simp [tagStep])
  | bool b => exact absurd h (by simp [tagStep])
  | int n => exact absurd h (by simp [tagStep])
  | str s => exact absurd h (by simp [tagStep])
  | seq l => exact absurd h (by simp [tagStep])

theorem tagFold_seen_mono (l : List YVal) (st st' : List YVal × List YVal)
    (h : l.foldlM tagStep st = .ok st') :
    ∃ ext, st'.1 = st.1 ++ ext := by
  induction l generalizing st with
  | nil =>
    simp only [List.foldlM, pure, Except.pure, Except.ok.injEq] at h
    exact ⟨[], by simp [← h]⟩
  | cons t ts ih =>
    simp only [List.foldlM, Bind.bind, Except.bind] at h
    split at h
    · exact absurd h (by simp)
    rename_i st1 h1
    obtain ⟨e1, he1⟩ := tagStep_ok_mono st st1 t h1
    obtain ⟨e2, he2⟩ := ih st1 h
    exact ⟨e1 ++ e2, by rw [he2, he1, List.append_assoc]⟩

/-- Replaying the tag loop on entries it has already processed changes
nothing: every name involved is already in the seen set. -/
theorem tagFold_idem (l : List YVal) (st st' : List YVal × List YVal)
    (h : l.foldlM tagStep st = .ok st') :
    l.foldlM tagStep st' = .ok st' := by
  induction l generalizing st with
  | nil => simp [List.foldlM, pure, Except.pure]
  | cons t ts ih =>
    simp only [List.foldlM, Bind.bind, Except.bind] at h ⊢
    split at h
    · exact absurd h (by simp)
    rename_i st1 h1
    obtain ⟨ext, hext⟩ := tagFold_seen_mono ts st1 st' h
    have hreplay := tagStep_replay st st1 st' t h1 ext hext
    rw [hreplay]
    exact ih st' (ih st1 h)

theorem srcItems_ok_elim (v : YVal) (src : Ydict) (h : srcItems v = .ok src) :
    src = [] ∨ v = .map src := by
  simp only [srcItems] at h
  by_cases ht : truthy v = true
  · rw [if_pos ht] at h
    cases v with
    | map d => exact Or.inr (congrArg YVal.map (Except.ok.inj h))
    | null => exact absurd h (by simp)
    | bool b => exact absurd h (by simp)
    | int n => exact absurd h (by simp)
    | str s => exact absurd h (by simp)
    | seq l => exact absurd h (by simp)
  · rw [if_neg ht] at h
    exact Or.inl (Except.ok.inj h).symm

theorem WFv_empty_map : WFv (.map []) :=
  (WFv_map []).mpr ⟨by simp [keys], by simp⟩

theorem WF_pyGet (spec : Ydict) (key : String) (hWF : WFv (.map spec)) :
    WFv (pyGet spec key (.map [])) := by
  simp only [pyGet]
  cases hl : lookup spec key with
  | none => exact WFv_empty_map
  | some w => exact WFv_lookup spec key w hWF hl

theorem WF_pyOrEmptyDict (v : YVal) (hWF : WFv v) : WFv (pyOrEmptyDict v) := by
  simp only [pyOrEmptyDict]
  by_cases ht : truthy v = true
  · rw [if_pos ht]; exact hWF
  · rw [if_neg ht]; exact WFv_empty_map

theorem WF_srcItems (v : YVal) (src : Ydict) (hWFv : WFv v)
    (h : srcItems v = .ok src) : WFv (.map src) := by
  rcases srcItems_ok_elim v src h with rfl | rfl
  · exact WFv_empty_map
  · exact hWFv

theorem WF_getComps (spec : Ydict) (comps : Ydict) (hWF : WFv (.map spec))
    (h : getComps spec = .ok comps) : WFv (.map comps) := by
  simp only [getComps] at h
  have hWFv := WF_pyOrEmptyDict _ (WF_pyGet spec "components" hWF)
  cases hv : pyOrEmptyDict (pyGet spec "components" (.map [])) with
  | map d =>
    simp only [hv] at h
    rw [← Except.ok.inj h, ← hv]
    exact hv ▸ hWFv
  | null => simp only [hv] at h; exact absurd h (by simp)
  | bool b => simp only [hv] at h; exact absurd h (by simp)
  | int n => simp only [hv] at h; exact absurd h (by simp)
  | str s => simp only [hv] at h; exact absurd h (by simp)
  | seq l => simp only [hv] at h; exact absurd h (by simp)

/-- A successful merge step is idempotent: running the same document into
the resulting accumulator again returns that accumulator unchanged. -/
theorem mergeStep_idem (b : Bool) (out : Ydict) (seen : List YVal)
    (spec : Ydict) (out' : Ydict) (seen' : List YVal)
    (hs : accumShape out b)
    (hWFout : WFv (.map out)) (hWFspec : WFv (.map spec))
    (h : mergeStep out seen spec = .ok (out', seen')) :
    mergeStep out' seen' spec = .ok (out', seen') := by
  obtain ⟨hkeys, ⟨pd, hp⟩, ⟨oc, hc, hck, hcsub⟩, ⟨acc, ht⟩⟩ := hs
  rw [mergeStep_eq_of_shape out seen spec pd oc acc hp hc ht] at h
  obtain ⟨src, comps, oc1, oc2, oc3, oc4, tags, st, hsrc, hcomps,
    h1, h2, h3, h4, htags, hst, hres⟩ := mergeStepShaped_ok_elim h
  rw [Prod.mk.injEq] at hres
  obtain ⟨ho, hsn⟩ := hres
  -- destructure the four component merges
  obtain ⟨d1, hd1⟩ := hcsub "schemas" (by simp)
  obtain ⟨s1, hs1, hoc1⟩ := mergeCompKey_ok_elim oc comps "schemas" oc1 d1 hd1 h1
  have hd2 : lookup oc1 "securitySchemes" = lookup oc "securitySchemes" := by
    rw [hoc1, lookup_setKey, if_neg (by decide)]
  obtain ⟨d2, hd2'⟩ := hcsub "securitySchemes" (by simp)
  obtain ⟨s2, hs2, hoc2⟩ := mergeCompKey_ok_elim oc1 comps "securitySchemes"
    oc2 d2 (by rw [hd2, hd2']) h2
  have hd3 : lookup oc2 "parameters" = lookup oc "parameters" := by
    rw [hoc2, lookup_setKey, if_neg (by decide), hoc1, lookup_setKey,
      if_neg (by decide)]
  obtain ⟨d3, hd3'⟩ := hcsub "parameters" (by simp)
  obtain ⟨s3, hs3, hoc3⟩ := mergeCompKey_ok_elim oc2 comps "parameters"
    oc3 d3 (by rw [hd3, hd3']) h3
  have hd4 : lookup oc3 "responses" = lookup oc "responses" := by
    rw [hoc3, lookup_setKey, if_neg (by decide), hoc2, lookup_setKey,
      if_neg (by decide), hoc1, lookup_setKey, if_neg (by decide)]
  obtain ⟨d4, hd4'⟩ := hcsub "responses" (by simp)
  obtain ⟨s4, hs4, hoc4⟩ := mergeCompKey_ok_elim oc3 comps "responses"
    oc4 d4 (by rw [hd4, hd4']) h4
  -- the values oc4 holds at the four keys
  have hv1 : lookup oc4 "schemas" = some (.map (deep_merge_dict d1 s1)) := by
    rw [hoc4, lookup_setKey, if_neg (by decide), hoc3, lookup_setKey,
      if_neg (by decide), hoc2, lookup_setKey, if_neg (by decide), hoc1,
      lookup_setKey, if_pos rfl]
  have hv2 : lookup oc4 "securitySchemes"
      = some (.map (deep_merge_dict d2 s2)) := by
    rw [hoc4, lookup_setKey, if_neg (by decide), hoc3, lookup_setKey,
      if_neg (by decide), hoc2, lookup_setKey, if_pos rfl]
  have hv3 : lookup oc4 "parameters" = some (.map (deep_merge_dict d3 s3)) := by
    rw [hoc4, lookup_setKey, if_neg (by decide), hoc3, lookup_setKey,
      if_pos rfl]
  have hv4 : lookup oc4 "responses" = some (.map (deep_merge_dict d4 s4)) := by
    rw [hoc4, lookup_setKey, if_pos rfl]
  -- well-formedness
  have hWFoc : WFv (.map oc) := WFv_lookup out "components" _ hWFout hc
  have hWFpd : WFv (.map pd) := WFv_lookup out "paths" _ hWFout hp
  have hWFsrc : WFv (.map src) :=
    WF_srcItems _ src (WF_pyGet spec "paths" hWFspec) hsrc
  have hWFcomps : WFv (.map comps) := WF_getComps spec comps hWFspec hcomps
  have hWFd1 : WFv (.map d1) := WFv_lookup oc "schemas" _ hWFoc hd1
  have hWFd2 : WFv (.map d2) := WFv_lookup oc "securitySchemes" _ hWFoc hd2'
  have hWFd3 : WFv (.map d3) := WFv_lookup oc "parameters" _ hWFoc hd3'
  have hWFd4 : WFv (.map d4) := WFv_lookup oc "responses" _ hWFoc hd4'
  have hWFs1 : WFv (.map s1) :=
    WF_srcItems _ s1 (WF_pyOrEmptyDict _ (WF_pyGet comps "schemas" hWFcomps)) hs1
  have hWFs2 : WFv (.map s2) :=
    WF_srcItems _ s2
      (WF_pyOrEmptyDict _ (WF_pyGet comps "securitySchemes" hWFcomps)) hs2
  have hWFs3 : WFv (.map s3) :=
    WF_srcItems _ s3
      (WF_pyOrEmptyDict _ (WF_pyGet comps "parameters" hWFcomps)) hs3
  have hWFs4 : WFv (.map s4) :=
    WF_srcItems _ s4
      (WF_pyOrEmptyDict _ (WF_pyGet comps "responses" hWFcomps)) hs4
  -- key lists
  have hkoc4 : keys oc4 = keys oc := by
    have m1 : "schemas" ∈ keys oc := by rw [hck]; simp
    have m2 : "securitySchemes" ∈ keys oc1 := by
      rw [hoc1, keys_setKey_of_mem _ _ _ m1, hck]; simp
    have m3 : "parameters" ∈ keys oc2 := by
      rw [hoc2, keys_setKey_of_mem _ _ _ m2, hoc1,
        keys_setKey_of_mem _ _ _ m1, hck]
      simp
    have m4 : "responses" ∈ keys oc3 := by
      rw [hoc3, keys_setKey_of_mem _ _ _ m3, hoc2,
        keys_setKey_of_mem _ _ _ m2, hoc1, keys_setKey_of_mem _ _ _ m1, hck]
      simp
    rw [hoc4, keys_setKey_of_mem _ _ _ m4, hoc3, keys_setKey_of_mem _ _ _ m3,
      hoc2, keys_setKey_of_mem _ _ _ m2, hoc1, keys_setKey_of_mem _ _ _ m1]
  have hndoc4 : (keys oc4).Nodup := by rw [hkoc4, hck]; decide
  -- the second-run component merges are no-ops
  have hu1 : mergeCompKey oc4 comps "schemas" = .ok oc4 := by
    rw [mergeCompKey_eq_of_map oc4 comps "schemas" _ hv1, hs1]
    simp only [Except.map]
    rw [deep_merge_dict_absorb d1 s1 hWFd1 hWFs1,
      setKey_lookup_self oc4 "schemas" _ hndoc4 hv1]
  have hu2 : mergeCompKey oc4 comps "securitySchemes" = .ok oc4 := by
    rw [mergeCompKey_eq_of_map oc4 comps "securitySchemes" _ hv2, hs2]
    simp only [Except.map]
    rw [deep_merge_dict_absorb d2 s2 hWFd2 hWFs2,
      setKey_lookup_self oc4 "securitySchemes" _ hndoc4 hv2]
  have hu3 : mergeCompKey oc4 comps "parameters" = .ok oc4 := by
    rw [mergeCompKey_eq_of_map oc4 comps "parameters" _ hv3, hs3]
    simp only [Except.map]
    rw [deep_merge_dict_absorb d3 s3 hWFd3 hWFs3,
      setKey_lookup_self oc4 "parameters" _ hndoc4 hv3]
  have hu4 : mergeCompKey oc4 comps "responses" = .ok oc4 := by
    rw [mergeCompKey_eq_of_map oc4 comps "responses" _ hv4, hs4]
    simp only [Except.map]
    rw [deep_merge_dict_absorb d4 s4 hWFd4 hWFs4,
      setKey_lookup_self oc4 "responses" _ hndoc4 hv4]
  -- shape of the new accumulator
  have hp' : lookup out' "paths" = some (.map (deep_merge_dict pd src)) := by
    rw [ho, lookup_setKey, if_neg (by decide), lookup_setKey,
      if_neg (by decide), lookup_setKey, if_pos rfl]
  have hc' : lookup out' "components" = some (.map oc4) := by
    rw [ho, lookup_setKey, if_neg (by decide), lookup_setKey, if_pos rfl]
  have ht' : lookup out' "tags" = some (.seq st.2) := by
    rw [ho, lookup_setKey, if_pos rfl]
  have hkout' : keys out' = keys out := by
    have m1 : "paths" ∈ keys out := by rw [hkeys]; simp
    have m2 : "components" ∈ keys (setKey out "paths"
        (.map (deep_merge_dict pd src))) := by
      rw [keys_setKey_of_mem _ _ _ m1, hkeys]; simp
    have m3 : "tags" ∈ keys (setKey (setKey out "paths"
        (.map (deep_merge_dict pd src))) "components" (.map oc4)) := by
      rw [keys_setKey_of_mem _ _ _ m2, keys_setKey_of_mem _ _ _ m1, hkeys]
      simp
    rw [ho, keys_setKey_of_mem _ _ _ m3, keys_setKey_of_mem _ _ _ m2,
      keys_setKey_of_mem _ _ _ m1]
  have hndout' : (keys out').Nodup := by
    rw [hkout', hkeys]
    cases b <;> decide
  -- second run
  rw [mergeStep_eq_of_shape out' seen' spec (deep_merge_dict pd src) oc4
    st.2 hp' hc' ht']
  have hfold2 : tags.foldlM tagStep (seen', st.2) = .ok (st.1, st.2) := by
    subst hsn
    have := tagFold_idem tags (seen, acc) st hst
    simpa using this
  simp only [mergeStepShaped, Bind.bind, Except.bind, hsrc, hcomps,
    hu1, hu2, hu3, hu4, htags, hfold2]
  rw [deep_merge_dict_absorb pd src hWFpd hWFsrc,
    setKey_lookup_self out' "paths" _ hndout' hp',
    setKey_lookup_self out' "components" _ hndout' hc',
    setKey_lookup_self out' "tags" _ hndout' ht', hsn]

theorem WFv_null : WFv .null := by rw [WFv]; trivial

theorem WFv_bool (b : Bool) : WFv (.bool b) := by rw [WFv]; trivial

theorem WFv_int (n : Int) : WFv (.int n) := by rw [WFv]; trivial

theorem WFv_str (s : String) : WFv (.str s) := by rw [WFv]; trivial

theorem WFv_seq_nil : WFv (.seq []) := (WFv_seq []).mpr (by simp)

theorem initOut_WF (ds : String) : WFv (.map (initOut ds)) := by
  have hinfo : WFv (.map [("title", YVal.str "FocusNest - All Services"),
      ("version", .str "1.0.0")]) := by
    rw [WFv_map]
    refine ⟨by decide, ?_⟩
    intro q hq
    rcases List.mem_cons.mp hq with rfl | hq
    · exact WFv_str _
    rcases List.mem_cons.mp hq with rfl | hq
    · exact WFv_str _
    · simp at hq
  have hcomps : WFv (.map [("schemas", YVal.map []),
      ("securitySchemes", .map []), ("parameters", .map []),
      ("responses", .map [])]) := by
    rw [WFv_map]
    refine ⟨by decide, ?_⟩
    intro q hq
    rcases List.mem_cons.mp hq with rfl | hq
    · exact WFv_empty_map
    rcases List.mem_cons.mp hq with rfl | hq
    · exact WFv_empty_map
    rcases List.mem_cons.mp hq with rfl | hq
    · exact WFv_empty_map
    rcases List.mem_cons.mp hq with rfl | hq
    · exact WFv_empty_map
    · simp at hq
  have hsrv : WFv (.seq [.map [("url", YVal.str ds),
      ("description", .str "Default")]]) := by
    rw [WFv_seq]
    intro x hx
    rcases List.mem_singleton.mp hx with rfl
    rw [WFv_map]
    refine ⟨by
      rw [show keys [("url", YVal.str ds), ("description", YVal.str "Default")]
        = ["url", "description"] from rfl]
      decide, ?_⟩
    intro q hq
    rcases List.mem_cons.mp hq with rfl | hq
    · exact WFv_str _
    rcases List.mem_cons.mp hq with rfl | hq
    · exact WFv_str _
    · simp at hq
  by_cases h : ds = ""
  · subst h
    have hcond : ¬ (("" : String) ≠ "") := by decide
    simp only [initOut, if_neg hcond]
    rw [WFv_map]
    refine ⟨by decide, ?_⟩
    intro q hq
    rcases List.mem_cons.mp hq with rfl | hq
    · exact WFv_str _
    rcases List.mem_cons.mp hq with rfl | hq
    · exact hinfo
    rcases List.mem_cons.mp hq with rfl | hq
    · exact WFv_empty_map
    rcases List.mem_cons.mp hq with rfl | hq
    · exact hcomps
    rcases List.mem_cons.mp hq with rfl | hq
    · exact WFv_seq_nil
    · simp at hq
  · simp only [initOut]
    rw [if_pos h]
    rw [show setKey [("openapi", YVal.str "3.0.3"),
        ("info", YVal.map [("title", .str "FocusNest - All Services"),
                           ("version", .str "1.0.0")]),
        ("paths", YVal.map []),
        ("components", YVal.map [("schemas", .map []),
          ("securitySchemes", .map []), ("parameters", .map []),
          ("responses", .map [])]),
        ("tags", YVal.seq [])] "servers"
        (YVal.seq [.map [("url", .str ds), ("description", .str "Default")]])
      = [("openapi", YVal.str "3.0.3"),
        ("info", YVal.map [("title", .str "FocusNest - All Services"),
                           ("version", .str "1.0.0")]),
        ("paths", YVal.map []),
        ("components", YVal.map [("schemas", .map []),
          ("securitySchemes", .map []), ("parameters", .map []),
          ("responses", .map [])]),
        ("tags", YVal.seq []),
        ("servers", YVal.seq [.map [("url", .str ds),
          ("description", .str "Default")]])] from rfl]
    rw [WFv_map]
    refine ⟨by
      rw [show keys [("openapi", YVal.str "3.0.3"),
        ("info", YVal.map [("title", .str "FocusNest - All Services"),
                           ("version", .str "1.0.0")]),
        ("paths", YVal.map []),
        ("components", YVal.map [("schemas", .map []),
          ("securitySchemes", .map []), ("parameters", .map []),
          ("responses", .map [])]),
        ("tags", YVal.seq []),
        ("servers", YVal.seq [.map [("url", .str ds),
          ("description", .str "Default")]])]
        = ["openapi", "info", "paths", "components", "tags", "servers"]
        from rfl]
      decide, ?_⟩
    intro q hq
    rcases List.mem_cons.mp hq with rfl | hq
    · exact WFv_str _
    rcases List.mem_cons.mp hq with rfl | hq
    · exact hinfo
    rcases List.mem_cons.mp hq with rfl | hq
    · exact WFv_empty_map
    rcases List.mem_cons.mp hq with rfl | hq
    · exact hcomps
    rcases List.mem_cons.mp hq with rfl | hq
    · exact WFv_seq_nil
    rcases List.mem_cons.mp hq with rfl | hq
    · exact hsrv
    · simp at hq

/-- C6.  Merging the same single input twice in sequence produces exactly
the same merged document (and the same run outcome) as merging it once:
`merge_specs([A, A]) = merge_specs([A])`.  The input just has to be a
parsed document, i.e. a well-formed tree (Python dicts cannot carry
duplicate keys). -/
theorem merge_specs_repeat_idempotent (load : String → Except String YVal)
    (env : Option String) (p : String) (A : Ydict)
    (hA : load p = .ok (.map A)) (hWF : WFv (.map A)) :
    merge_specs load env [p, p] = merge_specs load env [p] := by
  simp only [merge_specs, List.foldlM, Bind.bind, Except.bind]
  have hl : ∀ st : Ydict × List YVal, loadStep load st p
      = mergeStep st.1 st.2 A := by
    intro st
    simp [loadStep, hA, Bind.bind, Except.bind]
  rw [hl]
  cases hm : mergeStep (initOut (defaultServerOf env)) [] A with
  | error e => rfl
  | ok st1 =>
    obtain ⟨o1, s1⟩ := st1
    have hidem := mergeStep_idem _ _ _ _ _ _ (initOut_shape _)
      (initOut_WF _) hWF hm
    simp only [hl, hidem, pure, Except.pure]

/-- Witness for C6: merging one concrete document (with paths and tags)
twice equals merging it once, and the common result evaluated. -/
theorem merge_specs_repeat_idempotent_witness :
    merge_specs (fun _ => .ok (.map [("paths", .map [("/x",
        .map [("get", .map [("a", .int 1)])])]),
      ("tags", .seq [.map [("name", .str "t")]])])) none ["a", "a"] =
      merge_specs (fun _ => .ok (.map [("paths", .map [("/x",
        .map [("get", .map [("a", .int 1)])])]),
      ("tags", .seq [.map [("name", .str "t")]])])) none ["a"] ∧
    merge_specs (fun _ => .ok (.map [("paths", .map [("/x",
        .map [("get", .map [("a", .int 1)])])]),
      ("tags", .seq [.map [("name", .str "t")]])])) none ["a"] = .ok
      [("openapi", .str "3.0.3"),
       ("info", .map [("title", .str "FocusNest - All Services"),
                      ("version", .str "1.0.0")]),
       ("paths", .map [("/x", .map [("get", .map [("a", .int 1)])])]),
       ("components", .map [("schemas", .map []), ("securitySchemes", .map []),
                            ("parameters", .map []), ("responses", .map [])]),
       ("tags", .seq [.map [("name", .str "t")]])] := by
  have hWFA : WFv (.map [("paths", YVal.map [("/x",
      .map [("get", .map [("a", .int 1)])])]),
      ("tags", .seq [.map [("name", .str "t")]])]) := by
    rw [WFv_map]
    refine ⟨by decide, ?_⟩
    intro q hq
    rcases List.mem_cons.mp hq with rfl | hq
    · rw [WFv_map]
      refine ⟨by decide, ?_⟩
      intro r hr
      rcases List.mem_singleton.mp hr with rfl
      rw [WFv_map]
      refine ⟨by decide, ?_⟩
      intro u hu
      rcases List.mem_singleton.mp hu with rfl
      rw [WFv_map]
      refine ⟨by decide, ?_⟩
      intro w hw
      rcases List.mem_singleton.mp hw with rfl
      exact WFv_int _
    rcases List.mem_cons.mp hq with rfl | hq
    · rw [WFv_seq]
      intro x hx
      rcases List.mem_singleton.mp hx with rfl
      rw [WFv_map]
      refine ⟨by decide, ?_⟩
      intro r hr
      rcases List.mem_singleton.mp hr with rfl
      exact WFv_str _
    · simp at hq
  constructor
  · exact merge_specs_repeat_idempotent _ none "a" _ rfl hWFA
  · simp [merge_specs, defaultServerOf, pyStrip, loadStep, mergeStep,
      mergeCompKey, getComps, getTags, srcItems, pyGet, pyOrEmptyDict,
      pyOrEmptyList, truthy, initOut, setKey, lookup, deep_merge_dict,
      tagStep, scalarBeq, List.foldlM, Bind.bind, Except.bind, pure,
      Except.pure]

end MergeOpenapi
